import Mathlib

/-!
# Verification of the judgment-profile consolidation / versioning / drift engine

A shallow embedding, in Lean 4, of the Python package `packages/judgment`:

* `training/consolidator.py` — `TrainingConsolidator.consolidate` and its three
  phase helpers (pattern deepening, constraint and trigger de-duplication);
* `training/encoder.py` — `JudgmentEncoder.encode` and its id-based merge
  helpers;
* `memory/core.py` — `CoreMemory.write` (content-addressed version hashing via
  key-sorted JSON serialization and SHA-256 truncated to 16 hex characters);
* `memory/consolidator.py` — `Consolidator.detect_drift` and
  `Consolidator.generate_morning_note`;
* `retrieval/envelope_builder.py` — the untrained branch of
  `EnvelopeBuilder.build`.

Modelling conventions:

* Python `dict` records with possibly-missing keys become structures with
  `Option` fields; `d.get(k, default)` becomes `Option.getD`.
* Python exceptions (`AttributeError` from `None.lower()`, `KeyError` from a
  missing key in `d[k] += ...`, `ZeroDivisionError`) become `Except PyErr`.
* Python `float` arithmetic is modelled by exact rational arithmetic over `ℚ`;
  none of the verified statements depends on binary floating-point rounding at
  a tie point.
* Python `str.lower()` is modelled by the ASCII `pyLower`; all strings appearing
  in the verified statements are ASCII, where the two agree.
-/

deriving instance DecidableEq for Except

/-- Python runtime errors that the embedded code can raise. -/
inductive PyErr where
  | attributeError
  | keyError
  | zeroDivisionError
  deriving DecidableEq, Repr

/-- A pattern dict as produced by `JudgmentExtractor._extract_patterns` and
consumed by both merge strategies.  Each field models the presence/absence of
the corresponding dict key. -/
structure Pat where
  id : Option String := none
  name : Option String := none
  description : Option String := none
  responseGuidance : Option String := none
  domains : Option (List String) := none
  confidence : Option ℚ := none
  deriving DecidableEq, Repr

/-- A hard-constraint dict (`_extract_constraints` shape). -/
structure Cons where
  id : Option String := none
  description : Option String := none
  rule : Option String := none
  category : Option String := none
  critical : Option Bool := none
  deriving DecidableEq, Repr

/-- An escalation-trigger dict (`_extract_triggers` shape). -/
structure Trig where
  id : Option String := none
  description : Option String := none
  patterns : Option (List String) := none
  action : Option String := none
  priority : Option ℤ := none
  deriving DecidableEq, Repr

/-- A confidence-range dict (`_extract_confidence_map` shape; all four keys are
always present in the dicts this code builds). -/
structure ConfRange where
  min : ℚ
  max : ℚ
  action : String
  description : String
  deriving DecidableEq, Repr

/-- `str(x)` applied to an optional string, as Python f-string interpolation
does: a missing value renders as `"None"`. -/
def pyStr (o : Option String) : String := o.getD "None"

/-- Python's two-argument `min`, written so that it kernel-evaluates on
rational literals (`min(a, b)` returns `a` when `a <= b`). -/
def pyMin (a b : ℚ) : ℚ := if a ≤ b then a else b

theorem pyMin_eq_min (a b : ℚ) : pyMin a b = min a b := (min_def a b).symm

/-- Python's `str.lower()` on the ASCII range (all strings in the verified
statements are ASCII, where Python's full-Unicode lowering agrees). -/
def pyLower (s : String) : String :=
  String.mk (s.data.map (fun c =>
    if 'A' ≤ c ∧ c ≤ 'Z' then Char.ofNat (c.toNat + 32) else c))

/-! ## `TrainingConsolidator` (training/consolidator.py) -/

/-- Insert into a Python dict modelled as an association list: overwrite the
value if the key is present, otherwise append.  (Only lookup and membership
are used downstream, so the overwrite position is immaterial.) -/
def dictInsert (m : List (String × Nat)) (k : String) (v : Nat) :
    List (String × Nat) :=
  if m.any (fun e => e.1 = k) then
    m.map (fun e => if e.1 = k then (e.1, v) else e)
  else
    m ++ [(k, v)]

/-- `{p.get("name").lower(): i for i, p in enumerate(existing)}` — raises
`AttributeError` when a pattern has no `"name"` key (`None.lower()`). -/
def buildNames (existing : List Pat) : Except PyErr (List (String × Nat)) :=
  existing.enum.foldlM
    (fun m ip =>
      match ip.2.name with
      | none => .error .attributeError
      | some s => .ok (dictInsert m (pyLower s) ip.1))
    []

/-- One iteration of the `for p_new in new` loop of
`TrainingConsolidator._consolidate_patterns`: deepen the existing pattern at
the dict-recorded index, or append the draft.  The deepen branch mutates the
pattern dict in place in Python; here it returns the updated merged list, whose
first `existing.length` entries are exactly the (aliased) existing dicts. -/
def deepenStep (names : List (String × Nat)) (merged : List Pat) (pNew : Pat) :
    Except PyErr (List Pat) :=
  match pNew.name with
  | none => .error .attributeError
  | some s =>
    match names.lookup (pyLower s) with
    | some idx =>
      match merged[idx]? with
      | none => .error .keyError
      | some pOld =>
        match pOld.description with
        | none => .error .keyError
        | some d =>
          .ok (merged.set idx
            { pOld with
              description := some (d ++ "\nDeepened: " ++ pyStr pNew.description)
              confidence := some (pyMin 1 (pOld.confidence.getD (1/2) + 1/10)) })
    | none => .ok (merged ++ [pNew])

/-- `TrainingConsolidator._consolidate_patterns`. -/
def consolidatePatterns (existing new : List Pat) : Except PyErr (List Pat) := do
  let names ← buildNames existing
  new.foldlM (deepenStep names) existing

/-- `{c.get("rule").lower(): i for i, c in enumerate(existing)}`. -/
def buildRules (existing : List Cons) : Except PyErr (List (String × Nat)) :=
  existing.enum.foldlM
    (fun m ic =>
      match ic.2.rule with
      | none => .error .attributeError
      | some s => .ok (dictInsert m (pyLower s) ic.1))
    []

/-- `TrainingConsolidator._consolidate_constraints`. -/
def consolidateConstraints (existing new : List Cons) :
    Except PyErr (List Cons) := do
  let rules ← buildRules existing
  new.foldlM
    (fun merged cNew =>
      match cNew.rule with
      | none => .error .attributeError
      | some s =>
        if rules.any (fun e => e.1 = pyLower s) then .ok merged
        else .ok (merged ++ [cNew]))
    existing

/-- `{t.get("description").lower() for t in existing}` — a Python set. -/
def buildDescs (existing : List Trig) : Except PyErr (List String) :=
  existing.foldlM
    (fun acc t =>
      match t.description with
      | none => .error .attributeError
      | some s => .ok (acc ++ [pyLower s]))
    []

/-- `TrainingConsolidator._consolidate_triggers`. -/
def consolidateTriggers (existing new : List Trig) :
    Except PyErr (List Trig) := do
  let descs ← buildDescs existing
  new.foldlM
    (fun merged tNew =>
      match tNew.description with
      | none => .error .attributeError
      | some s =>
        if descs.contains (pyLower s) then .ok merged
        else .ok (merged ++ [tNew]))
    existing

/-- A contradiction flag surfaced for expert review (the reference
implementation never produces one). -/
structure ReviewFlag where
  note : String
  deriving DecidableEq, Repr

/-- `TrainingConsolidator._find_unresolved_contradictions` — the documented
stub: always the empty list. -/
def findUnresolvedContradictions (_patterns : List Pat)
    (_constraints : List Cons) : List ReviewFlag := []

/-- The existing judgment profile argument of `consolidate`
(`existing_judgment.get("patterns", [])` etc.: a missing collection key means
an empty list, a missing `"confidence_map"` key is `none`). -/
structure ExistingJudgment where
  patterns : List Pat := []
  hard_constraints : List Cons := []
  escalation_triggers : List Trig := []
  confidence_map : Option (List ConfRange) := none
  deriving DecidableEq, Repr

/-- The extraction dict produced by `JudgmentExtractor.extract`. -/
structure Extraction where
  patterns : List Pat := []
  constraints : List Cons := []
  triggers : List Trig := []
  confidence_map : Option (List ConfRange) := none
  raw_transcript_hash : Option String := none
  deriving DecidableEq, Repr

/-- The dict returned by `TrainingConsolidator.consolidate`. -/
structure ConsolidatedProfile where
  patterns : List Pat
  hard_constraints : List Cons
  escalation_triggers : List Trig
  confidence_map : List ConfRange
  review_required : List ReviewFlag
  deriving DecidableEq, Repr

/-- `TrainingConsolidator.consolidate`. -/
def consolidate (ej : ExistingJudgment) (ext : Extraction) :
    Except PyErr ConsolidatedProfile := do
  let ps ← consolidatePatterns ej.patterns ext.patterns
  let cs ← consolidateConstraints ej.hard_constraints ext.constraints
  let ts ← consolidateTriggers ej.escalation_triggers ext.triggers
  let cm := ext.confidence_map.getD (ej.confidence_map.getD [])
  .ok { patterns := ps
        hard_constraints := cs
        escalation_triggers := ts
        confidence_map := cm
        review_required := findUnresolvedContradictions ps cs }

/-- The contents of the caller's `existing` pattern list after
`_consolidate_patterns` returns.  `merged = list(existing)` is a shallow copy:
the first `existing.length` cells of `merged` alias the caller's dicts, and the
deepen branch mutates those dicts in place, so after the call the caller's
list holds exactly the first `existing.length` entries of the merged result. -/
def existingPatternsAfter (existing new : List Pat) :
    Except PyErr (List Pat) :=
  (consolidatePatterns existing new).map (fun m => m.take existing.length)

/-- The contents of the caller's `existing` constraint list after
`_consolidate_constraints` returns (the function only ever appends to its
shallow copy and never mutates a constraint dict). -/
def existingConstraintsAfter (existing new : List Cons) :
    Except PyErr (List Cons) :=
  (consolidateConstraints existing new).map (fun m => m.take existing.length)

/-- The contents of the caller's `existing` trigger list after
`_consolidate_triggers` returns. -/
def existingTriggersAfter (existing new : List Trig) :
    Except PyErr (List Trig) :=
  (consolidateTriggers existing new).map (fun m => m.take existing.length)

/-! ## `JudgmentEncoder` (training/encoder.py) -/

/-- `JudgmentEncoder._merge_patterns`: `existing_ids = {p.get("id") for p in
existing}`, then append each new pattern whose `"id"` is not in the set.  The
set may contain `none` (a pattern without an `"id"` key). -/
def encMergePatterns (existing new : List Pat) : List Pat :=
  let existingIds := existing.map (fun p => p.id)
  new.foldl
    (fun merged p => if p.id ∈ existingIds then merged else merged ++ [p])
    existing

/-- `JudgmentEncoder._merge_constraints` (id-based, same shape). -/
def encMergeConstraints (existing new : List Cons) : List Cons :=
  let existingIds := existing.map (fun c => c.id)
  new.foldl
    (fun merged c => if c.id ∈ existingIds then merged else merged ++ [c])
    existing

/-- `JudgmentEncoder._merge_triggers` (id-based, same shape). -/
def encMergeTriggers (existing new : List Trig) : List Trig :=
  let existingIds := existing.map (fun t => t.id)
  new.foldl
    (fun merged t => if t.id ∈ existingIds then merged else merged ++ [t])
    existing

/-- The record `CoreMemory.load` hands to `JudgmentEncoder.encode` when the
agent already has a stored profile (the loaded row always carries every key,
so the fields are not optional). -/
structure ExistingCore where
  expert_id : String := ""
  training_version : String := ""
  judgment_patterns : List Pat := []
  hard_constraints : List Cons := []
  escalation_triggers : List Trig := []
  confidence_map : List ConfRange := []
  deriving DecidableEq, Repr

/-- The four merged collections `JudgmentEncoder.encode` computes before
writing. -/
structure MergedQuad where
  patterns : List Pat
  constraints : List Cons
  triggers : List Trig
  confidence_map : List ConfRange
  deriving DecidableEq, Repr

/-- The merge `JudgmentEncoder.encode` actually performs when an existing
profile is present: id-based de-duplication for patterns, constraints and
triggers, and `extraction.get("confidence_map", existing.get("confidence_map",
[]))` for the confidence map. -/
def mergeForEncode (existing : ExistingCore) (ext : Extraction) : MergedQuad :=
  { patterns := encMergePatterns existing.judgment_patterns ext.patterns
    constraints := encMergeConstraints existing.hard_constraints ext.constraints
    triggers := encMergeTriggers existing.escalation_triggers ext.triggers
    confidence_map := ext.confidence_map.getD existing.confidence_map }

/-- Modelled from the spec's amended merge discipline: the pipeline's merge
keeps every existing entry and appends exactly the draft entries whose id is
not among the existing ids, in draft order; the confidence map prefers the
draft's when supplied.  This is the id-dedup description to compare
`mergeForEncode` against. -/
def specIdDedupMerge (existing : ExistingCore) (ext : Extraction) : MergedQuad :=
  { patterns := existing.judgment_patterns ++
      ext.patterns.filter
        (fun p => p.id ∉ existing.judgment_patterns.map (fun q => q.id))
    constraints := existing.hard_constraints ++
      ext.constraints.filter
        (fun c => c.id ∉ existing.hard_constraints.map (fun d => d.id))
    triggers := existing.escalation_triggers ++
      ext.triggers.filter
        (fun t => t.id ∉ existing.escalation_triggers.map (fun u => u.id))
    confidence_map := ext.confidence_map.getD existing.confidence_map }

/-! ## `Consolidator.detect_drift` (memory/consolidator.py) -/

/-- Python `/` on rationals: raises `ZeroDivisionError` on a zero
denominator. -/
def pyDiv (a b : ℚ) : Except PyErr ℚ :=
  if b = 0 then .error .zeroDivisionError else .ok (a / b)

/-- Round half to even at the integer, as Python's `round` does. -/
def roundHalfEven (q : ℚ) : ℤ :=
  let f := ⌊q⌋
  let r := q - f
  if r < 1/2 then f
  else if 1/2 < r then f + 1
  else if f % 2 = 0 then f else f + 1

/-- Python `round(x, 3)`. -/
def round3 (q : ℚ) : ℚ := (roundHalfEven (q * 1000) : ℚ) / 1000

/-- Fixed-point rendering with `prec` decimal places (Python `format(x,
".Nf")`), rounding half to even. -/
def fmtFixed (prec : Nat) (q : ℚ) : String :=
  let scaled := roundHalfEven (q * (10 : ℚ) ^ prec)
  let sign := if scaled < 0 then "-" else ""
  let n := scaled.natAbs
  let ip := n / 10 ^ prec
  let fp := n % 10 ^ prec
  if prec = 0 then sign ++ toString ip
  else sign ++ toString ip ++ "." ++ (toString fp).leftpad prec '0'

/-- Python `f"{x:.1%}"`: percentage with one decimal place. -/
def pct1 (q : ℚ) : String := fmtFixed 1 (q * 100) ++ "%"

/-- The dict returned by `Consolidator.detect_drift`. -/
structure DriftReport where
  agent_id : String
  drift_score : ℚ
  drift_detected : Bool
  escalation_rate : ℚ
  escalation_count : Nat
  task_count : Nat
  details : String
  deriving DecidableEq, Repr

/-- `Consolidator.detect_drift`, starting from the two telemetry counts the
database queries produce (the surrounding SQL is external I/O). -/
def detectDrift (agentId : String) (escalationCount taskCount : Nat) :
    Except PyErr DriftReport := do
  let escalationRate : ℚ ←
    if taskCount > 0 then pyDiv escalationCount taskCount else .ok 0
  let driftThreshold : ℚ := 3/10
  let driftDetected := decide (escalationRate > driftThreshold)
  let driftScore : ℚ ←
    if driftThreshold > 0 then
      (pyDiv escalationRate driftThreshold).map (fun x => pyMin 1 x)
    else .ok 0
  .ok { agent_id := agentId
        drift_score := round3 driftScore
        drift_detected := driftDetected
        escalation_rate := round3 escalationRate
        escalation_count := escalationCount
        task_count := taskCount
        details := "Escalation rate: " ++ pct1 escalationRate ++ " (" ++
          (if driftDetected then "DRIFT DETECTED" else "within normal range") ++
          ")" }

/-! ## `Consolidator.generate_morning_note` (memory/consolidator.py) -/

/-- An episode record as assembled by `run_consolidation` (`ep.get("sentiment",
0)` defaults a missing sentiment to `0`). -/
structure Episode where
  summary : String := ""
  outcome : String := ""
  sentiment : Option ℚ := none
  deriving DecidableEq, Repr

/-- The consolidation-result dict consumed by `generate_morning_note`. -/
structure ConsolidationResult where
  episodes_reviewed : Nat := 0
  patterns_found : Nat := 0
  episodes : List Episode := []
  deriving DecidableEq, Repr

/-- The drift-result fields `generate_morning_note` reads. -/
structure DriftInput where
  drift_detected : Bool := false
  drift_score : ℚ := 0
  escalation_rate : ℚ := 0
  deriving DecidableEq, Repr

/-- The local `positive` of `generate_morning_note`:
`sum(1 for ep in episodes if ep.get("sentiment", 0) > 0.5)`. -/
def notePositive (cr : ConsolidationResult) : Nat :=
  (cr.episodes.filter (fun ep => ep.sentiment.getD 0 > 1/2)).length

/-- The local `negative`: `sum(1 for ep in episodes if ep.get("sentiment", 0)
< -0.2)`. -/
def noteNegative (cr : ConsolidationResult) : Nat :=
  (cr.episodes.filter (fun ep => ep.sentiment.getD 0 < -(1/5))).length

/-- The local `neutral = episodes_reviewed - positive - negative` (Python
integer subtraction, so `ℤ`). -/
def noteNeutral (cr : ConsolidationResult) : ℤ :=
  (cr.episodes_reviewed : ℤ) - notePositive cr - noteNegative cr

/-- The local `sentiment_parts`: the nonzero buckets, in the order positive,
challenging, routine. -/
def noteBuckets (cr : ConsolidationResult) : List String :=
  (if notePositive cr > 0
   then [toString (notePositive cr) ++ " positive"] else []) ++
  (if noteNegative cr > 0
   then [toString (noteNegative cr) ++ " challenging"] else []) ++
  (if noteNeutral cr > 0
   then [toString (noteNeutral cr) ++ " routine"] else [])

/-- The opening sentence fragment of the morning note. -/
def noteOpening (cr : ConsolidationResult) : String :=
  "Good morning. Yesterday I processed " ++
    toString cr.episodes_reviewed ++ " sessions"

/-- `Consolidator.generate_morning_note`.  The Python builds a `parts` list
and returns `"".join(parts)`; the locals are the named definitions above. -/
def generateMorningNote (agentId : String) (cr : ConsolidationResult)
    (dr : DriftInput) : String :=
  if cr.episodes_reviewed = 0 then
    "Good morning. Agent " ++ agentId ++ " had a quiet day yesterday — " ++
      "no tasks were processed. Ready for today's assignments."
  else
    let parts : List String := [noteOpening cr]
    let parts :=
      if notePositive cr > 0 ∨ noteNegative cr > 0 then
        parts ++ [" (" ++ String.intercalate ", " (noteBuckets cr) ++ ")"]
      else parts
    let parts := parts ++ ["."]
    let parts :=
      if cr.patterns_found > 0 then
        parts ++ [" I identified " ++ toString cr.patterns_found ++
          " recurring patterns worth noting."]
      else parts
    let parts :=
      if dr.drift_detected then
        parts ++ [" ⚠️ Behavioral drift detected (score: " ++
          fmtFixed 2 dr.drift_score ++ ", escalation rate: " ++
          pct1 dr.escalation_rate ++ "). " ++
          "I recommend reviewing my recent decisions."]
      else parts ++ [" All systems operating within trained parameters."]
    String.join parts

/-! ## `EnvelopeBuilder.build` (retrieval/envelope_builder.py), untrained
branch -/

/-- The `expert_judgment` object assembled by `EnvelopeBuilder.build`. -/
structure ExpertJudgment where
  expertId : String
  version : String
  patterns : List Pat
  escalationTriggers : List Trig
  hardConstraints : List Cons
  confidenceMap : List ConfRange
  deriving DecidableEq, Repr

/-- Step 1 of `EnvelopeBuilder.build`: turn the result of
`core_memory.load(agent_id)` into the expert-judgment object.  The `none`
branch is the untrained default (note the `0.3`/`0.7` range boundaries in the
source). -/
def buildExpertJudgment : Option ExistingCore → ExpertJudgment
  | none =>
    { expertId := ""
      version := "untrained"
      patterns := []
      escalationTriggers := []
      hardConstraints := []
      confidenceMap :=
        [⟨0, 3/10, "escalate", "Low"⟩,
         ⟨3/10, 7/10, "slow_down", "Medium"⟩,
         ⟨7/10, 1, "act", "High"⟩] }
  | some cm =>
    { expertId := cm.expert_id
      version := cm.training_version
      patterns := cm.judgment_patterns
      escalationTriggers := cm.escalation_triggers
      hardConstraints := cm.hard_constraints
      confidenceMap := cm.confidence_map }

/-- Modelled from the spec: the default three-range confidence map the spec's
§3 lifecycle and §8 testable properties prescribe — `[0,0.3)→escalate,
[0.3,0.6)→slow_down, [0.6,1.0]→act` — as (min, max, action) triples, to be
compared with what `buildExpertJudgment` actually substitutes. -/
def specDefaultConfidenceMap : List (ℚ × ℚ × String) :=
  [(0, 3/10, "escalate"), (3/10, 6/10, "slow_down"), (6/10, 1, "act")]

/-! ## JSON values and `json.dumps(..., sort_keys=True)` (memory/core.py)

`CoreMemory.write` hashes `json.dumps(content, sort_keys=True)`.  We model
JSON values as a nested inductive; objects carry their entries in Python-dict
insertion order, and serialization sorts them by key, exactly as
`sort_keys=True` does (Python compares `str` by code point, as Mathlib's
`String` order does). -/

mutual

inductive Json where
  | null
  | bool (b : Bool)
  | num (q : ℚ)
  | str (s : String)
  | arr (items : JsonList)
  | obj (entries : JsonEntries)

/-- The element list of a JSON array (a separate inductive so that every
function below is structurally recursive, hence kernel-evaluable). -/
inductive JsonList where
  | nil
  | cons (hd : Json) (tl : JsonList)

/-- The key/value entries of a JSON object, in dict insertion order. -/
inductive JsonEntries where
  | nil
  | cons (key : String) (val : Json) (tl : JsonEntries)

end

/-- Build a `JsonList` from a plain list. -/
def JsonList.ofList : List Json → JsonList
  | [] => .nil
  | x :: xs => .cons x (JsonList.ofList xs)

/-- Build `JsonEntries` from a plain association list. -/
def JsonEntries.ofList : List (String × Json) → JsonEntries
  | [] => .nil
  | e :: es => .cons e.1 e.2 (JsonEntries.ofList es)

/-- The entries as a plain association list. -/
def JsonEntries.toList : JsonEntries → List (String × Json)
  | .nil => []
  | .cons k v es => (k, v) :: JsonEntries.toList es

/-- Lower-case hexadecimal digit. -/
def hexDigit (n : Nat) : Char :=
  (['0', '1', '2', '3', '4', '5', '6', '7'] ++
    ['8', '9', 'a', 'b', 'c', 'd', 'e', 'f']).getD n '0'

/-- Exactly `k` lower-case hex digits, most significant first. -/
def toHexFixed : Nat → Nat → List Char
  | 0, _ => []
  | k + 1, n => toHexFixed k (n / 16) ++ [hexDigit (n % 16)]

/-- `\uXXXX` escape (with a surrogate pair beyond the BMP), as
`json.encoder.py_encode_basestring_ascii` emits. -/
def uEscape (n : Nat) : List Char :=
  if n < 0x10000 then '\\' :: 'u' :: toHexFixed 4 n
  else
    let m := n - 0x10000
    ('\\' :: 'u' :: toHexFixed 4 (0xD800 + m / 0x400)) ++
    ('\\' :: 'u' :: toHexFixed 4 (0xDC00 + m % 0x400))

/-- Escape one character the way `json.dumps` (default `ensure_ascii=True`)
does: shortcuts for the common controls, `\uXXXX` for the rest of the controls
and for everything outside printable ASCII. -/
def escapeChar (c : Char) : List Char :=
  if c = '"' then ['\\', '"']
  else if c = '\\' then ['\\', '\\']
  else if c = '\n' then ['\\', 'n']
  else if c = '\r' then ['\\', 'r']
  else if c = '\t' then ['\\', 't']
  else if c.toNat = 8 then ['\\', 'b']
  else if c.toNat = 12 then ['\\', 'f']
  else if c.toNat < 0x20 ∨ 0x7e < c.toNat then uEscape c.toNat
  else [c]

/-- JSON string serialization. -/
def serString (s : String) : String :=
  String.mk ('"' :: s.data.foldr (fun c acc => escapeChar c ++ acc) ['"'])

/-- The smallest exponent `k ≤ 17` with `d ∣ 10^k`, when one exists. -/
def decExp (d : Nat) : Option Nat :=
  (List.range 18).find? (fun k => d ∣ 10 ^ k)

/-- Rendering of a JSON number.  The Python values hashed here are floats,
which `json.dumps` renders via `repr` (shortest round-trip); for rationals
with a terminating decimal expansion this is that exact expansion with at
least one fractional digit, which is what we produce.  Non-terminating
rationals (which never arise in the hashed content of any statement proved
below) get a deterministic fallback.  Determinism of the version hash needs
only that this is a function. -/
def renderNum (q : ℚ) : String :=
  match decExp q.den with
  | some 0 => toString q.num ++ ".0"
  | some k =>
    let scaled : ℤ := q.num * (10 : ℤ) ^ k / (q.den : ℤ)
    let sign := if scaled < 0 then "-" else ""
    let n := scaled.natAbs
    sign ++ toString (n / 10 ^ k) ++ "." ++ (toString (n % 10 ^ k)).leftpad k '0'
  | none => toString q.num ++ "/" ++ toString q.den

/-- Lexicographic comparison of character lists by code point — how Python
compares `str` keys in `sorted`. -/
def charListLe : List Char → List Char → Bool
  | [], _ => true
  | _ :: _, [] => false
  | c :: cs, d :: ds =>
    if c < d then true else if d < c then false else charListLe cs ds

/-- String comparison by code-point lexicographic order. -/
def strLeB (s t : String) : Bool := charListLe s.data t.data

theorem charListLe_total : ∀ x y : List Char,
    charListLe x y = true ∨ charListLe y x = true
  | [], _ => .inl rfl
  | _ :: _, [] => .inr rfl
  | c :: cs, d :: ds => by
    simp only [charListLe]
    rcases lt_trichotomy c d with h | h | h
    · simp [h, not_lt_of_gt h]
    · subst h
      simpa [lt_irrefl] using charListLe_total cs ds
    · simp [h, not_lt_of_gt h]

theorem charListLe_trans : ∀ x y z : List Char,
    charListLe x y = true → charListLe y z = true → charListLe x z = true
  | [], _, _, _, _ => rfl
  | _ :: _, [], _, h, _ => by simp [charListLe] at h
  | _ :: _, _ :: _, [], _, h => by simp [charListLe] at h
  | c :: cs, d :: ds, e :: es, h1, h2 => by
    simp only [charListLe] at h1 h2 ⊢
    rcases lt_trichotomy c d with hcd | hcd | hcd
    · rcases lt_trichotomy d e with hde | hde | hde
      · simp [lt_trans hcd hde]
      · subst hde; simp [hcd]
      · simp [hcd, not_lt_of_gt hcd] at h1
        simp [hde, not_lt_of_gt hde] at h2
    · subst hcd
      rcases lt_trichotomy c e with hce | hce | hce
      · simp [hce]
      · subst hce
        simp only [lt_irrefl, if_false] at h1 h2 ⊢
        exact charListLe_trans cs ds es h1 h2
      · simp [hce, not_lt_of_gt hce] at h2
    · simp [hcd, not_lt_of_gt hcd] at h1

theorem charListLe_antisymm : ∀ x y : List Char,
    charListLe x y = true → charListLe y x = true → x = y
  | [], [], _, _ => rfl
  | [], _ :: _, _, h => by simp [charListLe] at h
  | _ :: _, [], h, _ => by simp [charListLe] at h
  | c :: cs, d :: ds, h1, h2 => by
    simp only [charListLe] at h1 h2
    rcases lt_trichotomy c d with hcd | hcd | hcd
    · simp [hcd, not_lt_of_gt hcd] at h2
    · subst hcd
      simp only [lt_irrefl, if_false] at h1 h2
      exact congrArg (c :: ·) (charListLe_antisymm cs ds h1 h2)
    · simp [hcd, not_lt_of_gt hcd] at h1

theorem strLeB_antisymm {s t : String} (h1 : strLeB s t = true)
    (h2 : strLeB t s = true) : s = t := by
  cases s; cases t
  exact congrArg String.mk (charListLe_antisymm _ _ h1 h2)

/-- Comparison of keyed entries by key only (Python's `sorted` on dict items
never reaches the value component, since dict keys are unique). -/
def keyLe {β : Type} (a b : String × β) : Prop := strLeB a.1 b.1 = true

instance {β : Type} : DecidableRel (keyLe (β := β)) :=
  fun a b => inferInstanceAs (Decidable (strLeB a.1 b.1 = true))

instance {β : Type} : IsTotal (String × β) keyLe :=
  ⟨fun a b => charListLe_total a.1.data b.1.data⟩

instance {β : Type} : IsTrans (String × β) keyLe :=
  ⟨fun _ _ _ h h' => charListLe_trans _ _ _ h h'⟩

/-- Sort (key, rendered value) pairs by key. -/
def sortPairs (l : List (String × String)) : List (String × String) :=
  l.insertionSort keyLe

/-- Render one `"key": value` item (the default `json.dumps` separators are
`", "` and `": "`). -/
def renderPair (p : String × String) : String :=
  serString p.1 ++ ": " ++ p.2

mutual

/-- `json.dumps(v, sort_keys=True)`.  For objects, the items are sorted by key
and then rendered; since rendering keeps each key with its rendered value and
the comparison looks only at keys, serializing the key-sorted entries equals
key-sorting the (key, rendered value) pairs, which is the form used here (the
commutation is `insertionSort_map_key_preserving` below). -/
def dumps : Json → String
  | .null => "null"
  | .bool b => if b then "true" else "false"
  | .num q => renderNum q
  | .str s => serString s
  | .arr items => "[" ++ String.intercalate ", " (dumpsList items) ++ "]"
  | .obj entries =>
    "\x7b" ++
      String.intercalate ", " ((sortPairs (dumpsEntries entries)).map renderPair)
      ++ "\x7d"

/-- Serialize each array element. -/
def dumpsList : JsonList → List String
  | .nil => []
  | .cons x xs => dumps x :: dumpsList xs

/-- Serialize each object entry's value, keeping its key. -/
def dumpsEntries : JsonEntries → List (String × String)
  | .nil => []
  | .cons k v es => (k, dumps v) :: dumpsEntries es

end

/-- Sort object entries by key. -/
def sortEntries (l : List (String × Json)) : List (String × Json) :=
  l.insertionSort keyLe

mutual

/-- The canonical form of a JSON value: every object's entries recursively
sorted by key.  Two Python structures have "identical content in different key
order" exactly when their canonical forms are equal; this is the spec's
"canonical (key-sorted)" notion of content. -/
def canon : Json → Json
  | .null => .null
  | .bool b => .bool b
  | .num q => .num q
  | .str s => .str s
  | .arr items => .arr (.ofList (canonList items))
  | .obj entries => .obj (.ofList (sortEntries (canonEntries entries)))

/-- Canonicalize each array element. -/
def canonList : JsonList → List Json
  | .nil => []
  | .cons x xs => canon x :: canonList xs

/-- Canonicalize each object entry's value. -/
def canonEntries : JsonEntries → List (String × Json)
  | .nil => []
  | .cons k v es => (k, canon v) :: canonEntries es

end

/-! ## SHA-256 (the digest `hashlib.sha256` supplies to `CoreMemory.write`)

A direct FIPS 180-4 implementation over byte lists, with the round and
initial-hash constants derived, as the standard defines them, from the
fractional parts of the cube and square roots of the first primes. -/

namespace Sha256

/-- `2^32`, the word modulus. -/
def M : Nat := 4294967296

/-- Rotate a 32-bit word right by `n`. -/
def rotr (n x : Nat) : Nat :=
  ((x >>> n) ||| (x <<< (32 - n))) % M

/-- The first 64 primes, whose roots seed the SHA-256 constants. -/
def primes : List Nat :=
  [2, 3, 5, 7, 11, 13, 17, 19, 23, 29, 31, 37, 41, 43, 47, 53, 59, 61, 67, 71,
   73, 79, 83, 89, 97, 101, 103, 107, 109, 113, 127, 131, 137, 139, 149, 151,
   157, 163, 167, 173, 179, 181, 191, 193, 197, 199, 211, 223, 227, 229, 233,
   239, 241, 251, 257, 263, 269, 271, 277, 281, 283, 293, 307, 311]

/-- Bisection step for the integer cube root. -/
def icbrtAux (n : Nat) : Nat → Nat → Nat → Nat
  | lo, _, 0 => lo
  | lo, hi, fuel + 1 =>
    if hi ≤ lo + 1 then lo
    else
      let mid := (lo + hi) / 2
      if mid ^ 3 ≤ n then icbrtAux n mid hi fuel
      else icbrtAux n lo mid fuel

/-- Integer cube root: the largest `k` with `k^3 ≤ n` (for the inputs used
here, which exceed 0). -/
def icbrt (n : Nat) : Nat := icbrtAux n 0 (n + 1) 200

/-- First 32 bits of the fractional part of the cube root of `p`:
`⌊2^32 · cbrt p⌋ mod 2^32`. -/
def fracCbrt32 (p : Nat) : Nat := icbrt (p * 2 ^ 96) % M

/-- Bisection step for the integer square root. -/
def isqrtAux (n : Nat) : Nat → Nat → Nat → Nat
  | lo, _, 0 => lo
  | lo, hi, fuel + 1 =>
    if hi ≤ lo + 1 then lo
    else
      let mid := (lo + hi) / 2
      if mid ^ 2 ≤ n then isqrtAux n mid hi fuel
      else isqrtAux n lo mid fuel

/-- Integer square root: the largest `k` with `k^2 ≤ n` (for the inputs used
here, which exceed 0). -/
def isqrt (n : Nat) : Nat := isqrtAux n 0 (n + 1) 200

/-- First 32 bits of the fractional part of the square root of `p`. -/
def fracSqrt32 (p : Nat) : Nat := isqrt (p * 2 ^ 64) % M

/-- The 64 round constants `K`. -/
def K : List Nat := primes.map fracCbrt32

/-- The initial hash value `H⁰` (from the first 8 primes). -/
def H0 : List Nat := (primes.take 8).map fracSqrt32

def bigSigma0 (x : Nat) : Nat := rotr 2 x ^^^ rotr 13 x ^^^ rotr 22 x
def bigSigma1 (x : Nat) : Nat := rotr 6 x ^^^ rotr 11 x ^^^ rotr 25 x
def smallSigma0 (x : Nat) : Nat := rotr 7 x ^^^ rotr 18 x ^^^ (x >>> 3)
def smallSigma1 (x : Nat) : Nat := rotr 17 x ^^^ rotr 19 x ^^^ (x >>> 10)
def ch (e f g : Nat) : Nat := (e &&& f) ^^^ ((e ^^^ (M - 1)) &&& g)
def maj (a b c : Nat) : Nat := (a &&& b) ^^^ (a &&& c) ^^^ (b &&& c)

/-- Big-endian bytes (`count` of them) of `n`. -/
def beBytes : Nat → Nat → List Nat
  | 0, _ => []
  | k + 1, n => beBytes k (n / 256) ++ [n % 256]

/-- Merkle–Damgård padding: `0x80`, zeros to 56 mod 64, 8-byte big-endian bit
length. -/
def pad (msg : List Nat) : List Nat :=
  let len := msg.length
  let zeros := (56 + 64 - (len + 1) % 64) % 64
  msg ++ [0x80] ++ List.replicate zeros 0 ++ beBytes 8 (len * 8)

/-- Pack 4 big-endian bytes into each 32-bit word of a block. -/
def toWords : List Nat → List Nat
  | b0 :: b1 :: b2 :: b3 :: rest =>
    (((b0 * 256 + b1) * 256 + b2) * 256 + b3) :: toWords rest
  | _ => []

/-- Extend the 16 block words to the 64-entry message schedule. -/
def extendW (w : List Nat) : Nat → List Nat
  | 0 => w
  | fuel + 1 =>
    if w.length ≥ 64 then w
    else
      let i := w.length
      let word :=
        (smallSigma1 (w.getD (i - 2) 0) + w.getD (i - 7) 0 +
          smallSigma0 (w.getD (i - 15) 0) + w.getD (i - 16) 0) % M
      extendW (w ++ [word]) fuel

/-- The working registers. -/
structure Regs where
  a : Nat
  b : Nat
  c : Nat
  d : Nat
  e : Nat
  f : Nat
  g : Nat
  h : Nat

/-- One compression round. -/
def round (r : Regs) (kw : Nat × Nat) : Regs :=
  let t1 := (r.h + bigSigma1 r.e + ch r.e r.f r.g + kw.1 + kw.2) % M
  let t2 := (bigSigma0 r.a + maj r.a r.b r.c) % M
  { a := (t1 + t2) % M, b := r.a, c := r.b, d := r.c,
    e := (r.d + t1) % M, f := r.e, g := r.f, h := r.g }

/-- Compress one 64-byte block into the running hash. -/
def compress (h : List Nat) (block : List Nat) : List Nat :=
  let w := extendW (toWords block) 64
  let init : Regs :=
    { a := h.getD 0 0, b := h.getD 1 0, c := h.getD 2 0, d := h.getD 3 0,
      e := h.getD 4 0, f := h.getD 5 0, g := h.getD 6 0, h := h.getD 7 0 }
  let r := (K.zip w).foldl round init
  [(h.getD 0 0 + r.a) % M, (h.getD 1 0 + r.b) % M, (h.getD 2 0 + r.c) % M,
   (h.getD 3 0 + r.d) % M, (h.getD 4 0 + r.e) % M, (h.getD 5 0 + r.f) % M,
   (h.getD 6 0 + r.g) % M, (h.getD 7 0 + r.h) % M]

/-- Split a list into 64-byte blocks; the fuel is an upper bound on the block
count, so structural recursion (which the kernel evaluates) suffices. -/
def chunksAux : Nat → List Nat → List (List Nat)
  | 0, _ => []
  | fuel + 1, l => if l.isEmpty then [] else l.take 64 :: chunksAux fuel (l.drop 64)

/-- Split the padded message into 64-byte blocks. -/
def chunks (l : List Nat) : List (List Nat) := chunksAux (l.length + 1) l

/-- SHA-256 digest of a byte list, as eight 32-bit words. -/
def digestWords (msg : List Nat) : List Nat :=
  (chunks (pad msg)).foldl compress H0

/-- The digest as 64 lower-case hex characters
(`hashlib.sha256(...).hexdigest()`). -/
def hexChars (msg : List Nat) : List Char :=
  (digestWords msg).foldr (fun w acc => toHexFixed 8 w ++ acc) []

end Sha256

/-- UTF-8 encoding of a string (`content.encode()`), as a byte list. -/
def utf8Encode (s : String) : List Nat :=
  (s.data.map (fun c =>
    let n := c.toNat
    if n < 0x80 then [n]
    else if n < 0x800 then
      [0xC0 ||| (n >>> 6), 0x80 ||| (n &&& 0x3F)]
    else if n < 0x10000 then
      [0xE0 ||| (n >>> 12), 0x80 ||| ((n >>> 6) &&& 0x3F), 0x80 ||| (n &&& 0x3F)]
    else
      [0xF0 ||| (n >>> 18), 0x80 ||| ((n >>> 12) &&& 0x3F),
       0x80 ||| ((n >>> 6) &&& 0x3F), 0x80 ||| (n &&& 0x3F)])).flatten

/-! ## `CoreMemory.write` (memory/core.py) -/

/-- The content dict `CoreMemory.write` serializes and hashes, in its literal
insertion order. -/
def writeContentJson (judgment : Json) (constraints triggers confidence :
    List Json) : Json :=
  .obj (.ofList
    [("judgment", judgment), ("constraints", .arr (.ofList constraints)),
     ("triggers", .arr (.ofList triggers)),
     ("confidence", .arr (.ofList confidence))])

/-- `hashlib.sha256(content.encode()).hexdigest()[:16]` applied to
`json.dumps(content, sort_keys=True)`. -/
def versionHashOf (content : Json) : String :=
  String.mk ((Sha256.hexChars (utf8Encode (dumps content))).take 16)

/-- The row `CoreMemory.write` inserts (the fields the core logic computes;
ids and foreign keys are the database's concern). -/
structure CoreMemoryRecord where
  training_version : String
  created_at : ℚ
  locked_at : ℚ
  deriving DecidableEq, Repr

/-- `CoreMemory.write`: hash the canonically-serialized content, then insert a
record stamped with the wall-clock `now` (used for `created_at` and
`locked_at` only, never for the hash). -/
def coreMemoryWrite (judgment : Json)
    (constraints triggers confidence : List Json) (now : ℚ) :
    CoreMemoryRecord :=
  { training_version :=
      versionHashOf (writeContentJson judgment constraints triggers confidence)
    created_at := now
    locked_at := now }

/-! ## `JudgmentEncoder.encode` (training/encoder.py) -/

/-- A pattern dict as a JSON value (fields in dict insertion order; a `none`
field is an absent key). -/
def patToJson (p : Pat) : Json :=
  .obj (.ofList ((p.id.map (fun v => [("id", Json.str v)])).getD [] ++
    (p.name.map (fun v => [("name", Json.str v)])).getD [] ++
    (p.description.map (fun v => [("description", Json.str v)])).getD [] ++
    (p.responseGuidance.map
      (fun v => [("responseGuidance", Json.str v)])).getD [] ++
    (p.domains.map
      (fun v => [("domains", Json.arr (.ofList (v.map Json.str)))])).getD [] ++
    (p.confidence.map (fun v => [("confidence", Json.num v)])).getD []))

/-- A constraint dict as a JSON value. -/
def consToJson (c : Cons) : Json :=
  .obj (.ofList ((c.id.map (fun v => [("id", Json.str v)])).getD [] ++
    (c.description.map (fun v => [("description", Json.str v)])).getD [] ++
    (c.rule.map (fun v => [("rule", Json.str v)])).getD [] ++
    (c.category.map (fun v => [("category", Json.str v)])).getD [] ++
    (c.critical.map (fun v => [("critical", Json.bool v)])).getD []))

/-- A trigger dict as a JSON value. -/
def trigToJson (t : Trig) : Json :=
  .obj (.ofList ((t.id.map (fun v => [("id", Json.str v)])).getD [] ++
    (t.description.map (fun v => [("description", Json.str v)])).getD [] ++
    (t.patterns.map
      (fun v => [("patterns", Json.arr (.ofList (v.map Json.str)))])).getD [] ++
    (t.action.map (fun v => [("action", Json.str v)])).getD [] ++
    (t.priority.map (fun v => [("priority", Json.num (v : ℚ))])).getD []))

/-- A confidence-range dict as a JSON value. -/
def confToJson (r : ConfRange) : Json :=
  .obj (.ofList [("min", .num r.min), ("max", .num r.max),
        ("action", .str r.action), ("description", .str r.description)])

/-- `JudgmentEncoder.encode`, reduced to the version hash it returns: merge
with the existing profile when one is loaded, embed the merged patterns and
the raw transcript hash in `judgment_json`, then hash via
`CoreMemory.write`. -/
def encodeVersionHash (existing : Option ExistingCore) (ext : Extraction) :
    String :=
  let q : MergedQuad :=
    match existing with
    | some ex => mergeForEncode ex ext
    | none =>
      { patterns := ext.patterns, constraints := ext.constraints,
        triggers := ext.triggers,
        confidence_map := ext.confidence_map.getD [] }
  let judgmentJson : Json :=
    .obj (.ofList
      [("patterns", .arr (.ofList (q.patterns.map patToJson))),
       ("source_transcript_hash", .str (ext.raw_transcript_hash.getD ""))])
  versionHashOf (writeContentJson judgmentJson
    (q.constraints.map consToJson) (q.triggers.map trigToJson)
    (q.confidence_map.map confToJson))

/-- The case-folded name of a pattern, defaulting a missing name to `""` (the
default is only ever used where a hypothesis guarantees the name exists). -/
def lowName (q : Pat) : String := pyLower (q.name.getD "")

/-! ################################################################
    Theorems
    ################################################################ -/

/-! ### Generic fold lemmas -/

theorem foldlM_ok_of_inv {α β : Type} (f : β → α → Except PyErr β)
    (g : β → α → β) (P : β → Prop) :
    ∀ (l : List α) (b₀ : β), P b₀ →
      (∀ b a, P b → a ∈ l → f b a = .ok (g b a) ∧ P (g b a)) →
      l.foldlM f b₀ = .ok (l.foldl g b₀) ∧ P (l.foldl g b₀)
  | [], b₀, h0, _ => ⟨rfl, h0⟩
  | x :: xs, b₀, h0, hstep => by
    obtain ⟨hfx, hPx⟩ := hstep b₀ x h0 (List.mem_cons_self _ _)
    rw [List.foldlM_cons, hfx]
    have ih := foldlM_ok_of_inv f g P xs (g b₀ x) hPx
      (fun b a hb ha => hstep b a hb (List.mem_cons_of_mem _ ha))
    simpa using ih

theorem foldlM_error_of_mem {α β : Type} (f : β → α → Except PyErr β) :
    ∀ (l : List α) (a : α), a ∈ l →
      (∀ b, ∃ e, f b a = .error e) →
      ∀ b₀, ∃ e, l.foldlM f b₀ = .error e
  | x :: xs, a, ha, herr, b₀ => by
    rw [List.foldlM_cons]
    cases hfx : f b₀ x with
    | error e => exact ⟨e, rfl⟩
    | ok b' =>
      rcases List.mem_cons.mp ha with rfl | ha'
      · obtain ⟨e, he⟩ := herr b₀
        rw [hfx] at he
        cases he
      · simpa using foldlM_error_of_mem f xs a ha' herr b'

theorem foldl_append_singleton {α : Type} :
    ∀ (l acc : List α), l.foldl (fun m x => m ++ [x]) acc = acc ++ l
  | [], acc => by simp
  | x :: xs, acc => by
    simp [List.foldl_cons, foldl_append_singleton xs]

theorem foldl_skip_or_append {α : Type} (P : α → Bool) :
    ∀ (l acc : List α),
      l.foldl (fun m x => if P x then m else m ++ [x]) acc =
        acc ++ l.filter (fun x => !(P x))
  | [], acc => by simp
  | x :: xs, acc => by
    by_cases h : P x <;>
      simp [List.foldl_cons, h, foldl_skip_or_append P xs, List.filter_cons]

theorem mem_of_lookup_eq_some {β : Type} {k : String} {v : β} :
    ∀ {l : List (String × β)}, List.lookup k l = some v → (k, v) ∈ l
  | [], h => by simp [List.lookup] at h
  | (k', v') :: es, h => by
    simp only [List.lookup] at h
    split at h
    · next heq =>
      cases h
      exact (by rw [eq_of_beq heq] : (k, v) = (k', v)) ▸ List.mem_cons_self _ _
    · exact List.mem_cons_of_mem _ (mem_of_lookup_eq_some h)

/-! ### `buildNames` characterization -/

theorem buildNames_eq_ok (l : List Pat)
    (hnames : ∀ q ∈ l, (q.name).isSome) :
    buildNames l =
      .ok (l.enum.foldl (fun m ip => dictInsert m (lowName ip.2) ip.1) []) := by
  refine (foldlM_ok_of_inv _ _ (fun _ => True) l.enum [] trivial ?_).1
  rintro m ⟨i, q⟩ - hmem
  obtain ⟨-, hq⟩ := List.mem_enum hmem
  obtain ⟨s, hs⟩ := Option.isSome_iff_exists.mp
    (hnames q (by rw [hq]; exact List.getElem_mem _))
  simp [hs, lowName]

theorem foldl_dictInsert_disjoint :
    ∀ (kvs m₀ : List (String × Nat)),
      (kvs.map Prod.fst).Nodup →
      (∀ e ∈ m₀, ∀ kv ∈ kvs, e.1 ≠ kv.1) →
      kvs.foldl (fun m kv => dictInsert m kv.1 kv.2) m₀ = m₀ ++ kvs
  | [], m₀, _, _ => by simp
  | kv :: kvs, m₀, hnodup, hdisj => by
    have hnotin : ¬ m₀.any (fun e => e.1 = kv.1) = true := by
      simp only [List.any_eq_true, decide_eq_true_eq, not_exists]
      intro e he
      exact hdisj e he.1 kv (List.mem_cons_self _ _) he.2
    have hkey : kv.1 ∉ kvs.map Prod.fst := by
      have := hnodup
      rw [List.map_cons, List.nodup_cons] at this
      exact this.1
    rw [List.foldl_cons]
    show kvs.foldl (fun m kv => dictInsert m kv.1 kv.2) (dictInsert m₀ kv.1 kv.2)
      = m₀ ++ kv :: kvs
    rw [dictInsert, if_neg hnotin,
      foldl_dictInsert_disjoint kvs (m₀ ++ [kv])
        (by rw [List.map_cons, List.nodup_cons] at hnodup; exact hnodup.2)
        ?_]
    · simp
    · intro e he kv' hkv'
      rcases List.mem_append.mp he with he | he
      · exact hdisj e he kv' (List.mem_cons_of_mem _ hkv')
      · rcases List.mem_singleton.mp he with rfl
        exact fun h => hkey (h ▸ List.mem_map_of_mem Prod.fst hkv')

/-- Under per-pattern name presence and case-folded-name uniqueness, the dict
comprehension of `_consolidate_patterns` is the plain association list of
(case-folded name, index) pairs. -/
theorem buildNames_eq_of_nodup (l : List Pat)
    (hnames : ∀ q ∈ l, (q.name).isSome)
    (hnodup : (l.map lowName).Nodup) :
    buildNames l = .ok (l.enum.map (fun ip => (lowName ip.2, ip.1))) := by
  rw [buildNames_eq_ok l hnames]
  congr 1
  have hmap : l.enum.foldl (fun m ip => dictInsert m (lowName ip.2) ip.1) [] =
      (l.enum.map (fun ip => (lowName ip.2, ip.1))).foldl
        (fun m kv => dictInsert m kv.1 kv.2) [] := by
    rw [List.foldl_map]
  rw [hmap, foldl_dictInsert_disjoint _ _ ?_ (by simp)]
  · simp
  · have : (l.enum.map (fun ip => (lowName ip.2, ip.1))).map Prod.fst =
        l.map lowName := by
      rw [List.map_map]
      have h2 : (Prod.fst ∘ fun ip : Nat × Pat => (lowName ip.2, ip.1)) =
          (fun ip : Nat × Pat => lowName ip.2) := rfl
      rw [h2, show (fun ip : Nat × Pat => lowName ip.2) =
        (lowName ∘ Prod.snd) from rfl, ← List.map_map, List.enum_map_snd]
    rw [this]
    exact hnodup

theorem lookup_enumFrom_map (k : String) :
    ∀ (l : List Pat) (n : Nat),
      List.lookup k ((l.enumFrom n).map (fun ip => (lowName ip.2, ip.1))) =
        List.findIdx? (fun q => lowName q == k) l n
  | [], _ => rfl
  | q :: qs, n => by
    rw [List.enumFrom_cons, List.map_cons, List.findIdx?_cons]
    by_cases h : lowName q = k
    · simp [List.lookup, h]
    · have h1 : (k == lowName q) = false := by
        simpa using fun he => h he.symm
      have h2 : (lowName q == k) = false := by simpa using h
      simp only [List.lookup, h1, h2, if_false]
      exact lookup_enumFrom_map k qs (n + 1)

theorem findIdx?_eq_some_of_unique (p : Pat → Bool) :
    ∀ (l : List Pat) (i n : Nat) (hi : i < l.length),
      p l[i] = true → (∀ j, (hj : j < l.length) → p l[j] = true → j = i) →
      List.findIdx? p l n = some (n + i)
  | q :: qs, i, n, hi, hp, huniq => by
    rw [List.findIdx?_cons]
    by_cases h0 : p q = true
    · have h1 : (0 : Nat) = i := huniq 0 (by omega) (by simpa using h0)
      rw [if_pos h0, ← h1]
      norm_num
    · have hi0 : i ≠ 0 := by
        rintro rfl
        exact h0 (by simpa using hp)
      obtain ⟨i', rfl⟩ : ∃ i', i = i' + 1 := ⟨i - 1, by omega⟩
      rw [if_neg h0]
      have ih := findIdx?_eq_some_of_unique p qs i' (n + 1)
        (by simpa using hi)
        (by simpa using hp)
        (fun j hj hpj => by
          have := huniq (j + 1) (by simpa using hj)
            (by simpa using hpj)
          omega)
      rw [ih]
      congr 1
      omega

theorem findIdx?_eq_none_of_forall (p : Pat → Bool) :
    ∀ (l : List Pat) (n : Nat), (∀ q ∈ l, ¬ p q = true) →
      List.findIdx? p l n = none
  | [], _, _ => rfl
  | q :: qs, n, hnone => by
    rw [List.findIdx?_cons, if_neg (hnone q (List.mem_cons_self _ _))]
    exact findIdx?_eq_none_of_forall p qs (n + 1)
      (fun q hq => hnone q (List.mem_cons_of_mem _ hq))

/-- C1 — Pattern merge deepening: merging a single draft pattern into an
existing profile (whose patterns all carry names, unique up to case folding)
either deepens the uniquely-matching existing pattern in place — appending
`"\nDeepened: " + draft.description` and raising confidence by `0.1` capped at
`1.0` — or, when no existing pattern has the draft's case-folded name, appends
the draft as a new entry. -/
theorem pattern_merge_deepening (existing : List Pat) (p : Pat) (s : String)
    (hp : p.name = some s)
    (hnames : ∀ q ∈ existing, (q.name).isSome)
    (hnodup : (existing.map lowName).Nodup) :
    (∀ (i : Nat) (hi : i < existing.length) (t d : String) (c : ℚ),
        existing[i].name = some t → pyLower t = pyLower s →
        existing[i].description = some d → existing[i].confidence = some c →
        consolidatePatterns existing [p] =
          .ok (existing.set i
            { existing[i] with
              description := some (d ++ "\nDeepened: " ++ pyStr p.description)
              confidence := some (min 1 (c + 1/10)) })) ∧
    ((∀ q ∈ existing, lowName q ≠ pyLower s) →
      consolidatePatterns existing [p] = .ok (existing ++ [p])) := by
  have hnames' := buildNames_eq_of_nodup existing hnames hnodup
  have hmain : consolidatePatterns existing [p] =
      deepenStep (existing.enum.map (fun ip => (lowName ip.2, ip.1)))
        existing p := by
    rw [consolidatePatterns, hnames']
    show (List.foldlM _ existing [p] : Except PyErr (List Pat)) = _
    simp [List.foldlM_cons]
  have hlookup : ∀ k, List.lookup k
      (existing.enum.map (fun ip => (lowName ip.2, ip.1))) =
      List.findIdx? (fun q => lowName q == k) existing 0 := by
    intro k
    exact lookup_enumFrom_map k existing 0
  constructor
  · intro i hi t d c hname hfold hdesc hconf
    have hlow : lowName existing[i] = pyLower s := by
      rw [lowName, hname]
      exact hfold
    have hfind : List.findIdx? (fun q => lowName q == pyLower s) existing 0 =
        some i := by
      have := findIdx?_eq_some_of_unique (fun q => lowName q == pyLower s)
        existing i 0 hi (by simpa using hlow) ?_
      · simpa using this
      · intro j hj hpj
        have hj' : lowName existing[j] = lowName existing[i] := by
          rw [hlow]
          simpa using hpj
        have hjm : j < (existing.map lowName).length := by simpa using hj
        have him : i < (existing.map lowName).length := by simpa using hi
        have h1 : (existing.map lowName)[j] = (existing.map lowName)[i] := by
          simpa using hj'
        exact (@List.Nodup.getElem_inj_iff _ _ hnodup _ hjm _ him).mp h1
    rw [hmain]
    simp only [deepenStep, hp, hlookup, hfind, List.getElem?_eq_getElem hi,
      hdesc, hconf, Option.getD_some, pyMin_eq_min]
  · intro hnone
    have hfind : List.findIdx? (fun q => lowName q == pyLower s) existing 0 =
        none :=
      findIdx?_eq_none_of_forall _ existing 0
        (fun q hq => by simpa using hnone q hq)
    rw [hmain]
    simp only [deepenStep, hp, hlookup, hfind]

/-- Witness for C1 at the spec's own example: existing `{name:"Foo",
confidence:0.5, description:"d1"}` merged with draft `{name:"foo",
description:"d2"}` yields one pattern with confidence `0.6` and a description
containing both `"d1"` and `"Deepened: d2"`. -/
theorem pattern_merge_deepening_witness :
    consolidatePatterns
        [{ name := some "Foo", description := some "d1",
           confidence := some (1/2) }]
        [{ name := some "foo", description := some "d2" }] =
      .ok [{ name := some "Foo",
             description := some ("d1" ++ "\nDeepened: " ++ pyStr (some "d2")),
             confidence := some (min 1 (1/2 + 1/10)) }] ∧
    ("d1" ++ "\nDeepened: " ++ pyStr (some "d2") = "d1\nDeepened: d2") ∧
    (min 1 ((1 : ℚ)/2 + 1/10) = 3/5) ∧
    ("d1".data <:+: ("d1\nDeepened: d2").data) ∧
    (("Deepened: d2").data <:+: ("d1\nDeepened: d2").data) := by
  refine ⟨?_, by decide, by norm_num, by decide, by decide⟩
  have h := (pattern_merge_deepening
      [{ name := some "Foo", description := some "d1",
         confidence := some (1/2) }]
      { name := some "foo", description := some "d2" } "foo" rfl
      (by decide) (by decide)).1 0 (by decide) "Foo" "d1" (1/2)
      rfl (by decide) rfl rfl
  simpa using h

/-! ### C8 — purity of `consolidate` -/

theorem foldlM_inv_of_ok {α β : Type} (f : β → α → Except PyErr β)
    (P : β → Prop) :
    ∀ (l : List α) (b₀ m : β), P b₀ →
      (∀ b a b', P b → a ∈ l → f b a = .ok b' → P b') →
      l.foldlM f b₀ = .ok m → P m
  | [], b₀, m, h0, _, hok => by
    cases hok
    exact h0
  | x :: xs, b₀, m, h0, hstep, hok => by
    rw [List.foldlM_cons] at hok
    cases hfx : f b₀ x with
    | error e => rw [hfx] at hok; cases hok
    | ok b' =>
      rw [hfx] at hok
      exact foldlM_inv_of_ok f P xs b' m
        (hstep b₀ x b' h0 (List.mem_cons_self _ _) hfx)
        (fun b a b'' hb ha => hstep b a b'' hb (List.mem_cons_of_mem _ ha))
        hok

theorem mem_dictInsert {m : List (String × Nat)} {k : String} {v : Nat}
    {e : String × Nat} (he : e ∈ dictInsert m k v) :
    e ∈ m ∨ (e.1 ∈ k :: m.map Prod.fst ∧ e.2 = v) := by
  rw [dictInsert] at he
  split at he
  · obtain ⟨e', he', heq⟩ := List.mem_map.mp he
    by_cases h : e'.1 = k
    · rw [if_pos h] at heq
      right
      constructor
      · rw [← heq]
        simpa using Or.inl h
      · rw [← heq]
    · rw [if_neg h] at heq
      exact Or.inl (heq ▸ he')
  · rcases List.mem_append.mp he with he | he
    · exact Or.inl he
    · rcases List.mem_singleton.mp he with rfl
      exact Or.inr ⟨List.mem_cons_self _ _, rfl⟩

/-- Every key in the name dict is the case-folded name of some existing
pattern. -/
theorem buildNames_keys {l : List Pat} {names : List (String × Nat)}
    (h : buildNames l = .ok names) :
    ∀ e ∈ names, e.1 ∈ l.map lowName := by
  refine foldlM_inv_of_ok _ (fun m => ∀ e ∈ m, e.1 ∈ l.map lowName)
    l.enum [] names (by simp) ?_ h
  rintro m ⟨i, q⟩ m' hm hmem hstep e he
  obtain ⟨-, hq⟩ := List.mem_enum hmem
  cases hs : q.name with
  | none => rw [hs] at hstep; cases hstep
  | some s =>
    rw [hs] at hstep
    cases hstep
    rcases mem_dictInsert he with he' | ⟨hk, -⟩
    · exact hm e he'
    · rcases List.mem_cons.mp hk with hk | hk
      · rw [hk]
        have hql : q ∈ l := by rw [hq]; exact List.getElem_mem _
        have : lowName q = pyLower s := by simp [lowName, hs]
        exact this ▸ List.mem_map_of_mem lowName hql
      · obtain ⟨e', he', -⟩ := List.mem_map.mp hk
        have := hm e' he'
        obtain ⟨e'', he'', heq⟩ := List.mem_map.mp hk
        exact heq ▸ hm e'' he''

/-- Every index in the name dict is in range for the existing list. -/
theorem buildNames_values {l : List Pat} {names : List (String × Nat)}
    (h : buildNames l = .ok names) :
    ∀ e ∈ names, e.2 < l.length := by
  refine foldlM_inv_of_ok _ (fun m => ∀ e ∈ m, e.2 < l.length)
    l.enum [] names (by simp) ?_ h
  rintro m ⟨i, q⟩ m' hm hmem hstep e he
  obtain ⟨hi, -⟩ := List.mem_enum hmem
  cases hs : q.name with
  | none => rw [hs] at hstep; cases hstep
  | some s =>
    rw [hs] at hstep
    cases hstep
    rcases mem_dictInsert he with he' | ⟨-, hv⟩
    · exact hm e he'
    · omega

/-- A successful `_consolidate_constraints` only appends: its result extends
the existing list. -/
theorem consolidateConstraints_extends {ex nw : List Cons} {m : List Cons}
    (h : consolidateConstraints ex nw = .ok m) :
    ∃ t, m = ex ++ t := by
  rw [consolidateConstraints] at h
  cases hr : buildRules ex with
  | error e => rw [hr] at h; cases h
  | ok rules =>
    rw [hr] at h
    refine foldlM_inv_of_ok _ (fun b => ∃ t, b = ex ++ t) nw ex m
      ⟨[], by simp⟩ ?_ h
    rintro b c b' ⟨t, rfl⟩ hc hstep
    cases hrule : c.rule with
    | none => rw [hrule] at hstep; cases hstep
    | some s =>
      rw [hrule] at hstep
      dsimp only at hstep
      by_cases hb : (rules.any fun e => e.1 = pyLower s) = true
      · rw [if_pos hb] at hstep
        cases hstep
        exact ⟨t, rfl⟩
      · rw [if_neg hb] at hstep
        cases hstep
        exact ⟨t ++ [c], by simp⟩

/-- A successful `_consolidate_triggers` only appends. -/
theorem consolidateTriggers_extends {ex nw : List Trig} {m : List Trig}
    (h : consolidateTriggers ex nw = .ok m) :
    ∃ t, m = ex ++ t := by
  rw [consolidateTriggers] at h
  cases hr : buildDescs ex with
  | error e => rw [hr] at h; cases h
  | ok descs =>
    rw [hr] at h
    refine foldlM_inv_of_ok _ (fun b => ∃ t, b = ex ++ t) nw ex m
      ⟨[], by simp⟩ ?_ h
    rintro b c b' ⟨t, rfl⟩ hc hstep
    cases hd : c.description with
    | none => rw [hd] at hstep; cases hstep
    | some s =>
      rw [hd] at hstep
      dsimp only at hstep
      by_cases hb : (descs.contains (pyLower s)) = true
      · rw [if_pos hb] at hstep
        cases hstep
        exact ⟨t, rfl⟩
      · rw [if_neg hb] at hstep
        cases hstep
        exact ⟨t ++ [c], by simp⟩

/-- Counterexample to C8 as stated: `consolidate` is not pure.  Deepening
mutates the matched existing pattern dict in place (the merged list is a
shallow copy), so after the spec's own deepening example the caller's
`existing` list no longer holds its original field values: its single
pattern's description and confidence have changed. -/
theorem consolidate_purity_counterexample :
    existingPatternsAfter
        [{ name := some "Foo", description := some "d1",
           confidence := some (1/2) }]
        [{ name := some "foo", description := some "d2" }] ≠
      .ok [{ name := some "Foo", description := some "d1",
             confidence := some (1/2) }] ∧
    existingPatternsAfter
        [{ name := some "Foo", description := some "d1",
           confidence := some (1/2) }]
        [{ name := some "foo", description := some "d2" }] =
      .ok [{ name := some "Foo", description := some "d1\nDeepened: d2",
             confidence := some (3/5) }] := by
  constructor
  · with_unfolding_all decide
  · with_unfolding_all decide

/-- C8 (amended) — frame of `consolidate`: the draft is never mutated, the
existing constraint and trigger dicts are never mutated (their merges only
append to a shallow copy), and the existing patterns are left unchanged
exactly when no draft pattern's case-folded name matches an existing one;
a matching draft deepens the existing pattern dict in place. -/
theorem consolidate_frame_amended (ex nw : List Pat)
    (csEx csNew : List Cons) (tsEx tsNew : List Trig)
    (hnamesEx : ∀ q ∈ ex, (q.name).isSome)
    (hnamesNew : ∀ p ∈ nw, (p.name).isSome)
    (hdisj : ∀ p ∈ nw, ∀ q ∈ ex, lowName p ≠ lowName q) :
    consolidatePatterns ex nw = .ok (ex ++ nw) ∧
    existingPatternsAfter ex nw = .ok ex ∧
    (∀ m, consolidateConstraints csEx csNew = .ok m →
      existingConstraintsAfter csEx csNew = .ok csEx) ∧
    (∀ m, consolidateTriggers tsEx tsNew = .ok m →
      existingTriggersAfter tsEx tsNew = .ok tsEx) := by
  have hbn := buildNames_eq_ok ex hnamesEx
  have hmerge : consolidatePatterns ex nw = .ok (ex ++ nw) := by
    rw [consolidatePatterns, hbn]
    show nw.foldlM (deepenStep _) ex = _
    set names := ex.enum.foldl
      (fun m ip => dictInsert m (lowName ip.2) ip.1) [] with hnames_def
    have hkeys : ∀ e ∈ names, e.1 ∈ ex.map lowName :=
      buildNames_keys (by rw [hbn])
    have := foldlM_ok_of_inv (deepenStep names)
      (fun m p => m ++ [p]) (fun _ => True) nw ex trivial ?_
    · rw [this.1, foldl_append_singleton]
    · rintro b p - hp
      refine ⟨?_, trivial⟩
      obtain ⟨s, hs⟩ := Option.isSome_iff_exists.mp (hnamesNew p hp)
      rw [deepenStep, hs]
      dsimp only
      cases hlk : List.lookup (pyLower s) names with
      | none => rfl
      | some idx =>
        exfalso
        have hmem := mem_of_lookup_eq_some hlk
        have := hkeys _ hmem
        obtain ⟨q, hq, hql⟩ := List.mem_map.mp this
        have hql' : lowName q = pyLower s := by simpa using hql
        refine hdisj p hp q hq ?_
        rw [hql', lowName, hs]
        rfl
  refine ⟨hmerge, ?_, ?_, ?_⟩
  · rw [existingPatternsAfter, hmerge]
    simp [Except.map]
  · intro m hm
    obtain ⟨t, rfl⟩ := consolidateConstraints_extends hm
    rw [existingConstraintsAfter, hm]
    simp [Except.map]
  · intro m hm
    obtain ⟨t, rfl⟩ := consolidateTriggers_extends hm
    rw [existingTriggersAfter, hm]
    simp [Except.map]

/-- Witness for the amended C8: with disjoint names nothing is mutated. -/
theorem consolidate_frame_amended_witness :
    consolidatePatterns [{ name := some "Foo", description := some "d1" }]
        [{ name := some "Bar", description := some "d2" }] =
      .ok [{ name := some "Foo", description := some "d1" },
           { name := some "Bar", description := some "d2" }] ∧
    existingPatternsAfter [{ name := some "Foo", description := some "d1" }]
        [{ name := some "Bar", description := some "d2" }] =
      .ok [{ name := some "Foo", description := some "d1" }] := by
  have h := consolidate_frame_amended
    [{ name := some "Foo", description := some "d1" }]
    [{ name := some "Bar", description := some "d2" }] [] [] [] []
    (by decide) (by decide) (by decide)
  exact ⟨h.1, h.2.1⟩

/-! ### C10 — totality of `consolidate` -/

/-- A member of `l` with a missing key makes the dict comprehension raise. -/
theorem dict_comprehension_error {γ : Type} (key : γ → Option String)
    (l : List γ) (x : γ) (hx : x ∈ l) (hnone : key x = none) :
    ∃ e, (l.enum.foldlM (fun m ip =>
        match key ip.2 with
        | none => Except.error PyErr.attributeError
        | some s => .ok (dictInsert m (pyLower s) ip.1))
      ([] : List (String × Nat))) = .error e := by
  obtain ⟨i, hi, hq⟩ := List.mem_iff_getElem.mp hx
  have hmem : (i, x) ∈ l.enum := by
    have h := List.getElem_enum l i (by simpa [List.enum_length] using hi)
    rw [hq] at h
    rw [← h]
    exact List.getElem_mem _
  exact foldlM_error_of_mem _ l.enum (i, x) hmem
    (fun b => ⟨.attributeError, by simp [hnone]⟩) []

/-- `buildNames` succeeds iff every pattern carries a name (ok direction). -/
theorem buildRules_ok (l : List Cons) (hrule : ∀ c ∈ l, (c.rule).isSome) :
    ∃ rules, buildRules l = .ok rules := by
  refine ⟨_, (foldlM_ok_of_inv _
    (fun m ic => dictInsert m (pyLower (ic.2.rule.getD "")) ic.1)
    (fun _ => True) l.enum [] trivial ?_).1⟩
  rintro m ⟨i, c⟩ - hmem
  obtain ⟨-, hc⟩ := List.mem_enum hmem
  obtain ⟨s, hs⟩ := Option.isSome_iff_exists.mp
    (hrule c (by rw [hc]; exact List.getElem_mem _))
  simp [hs]

theorem buildDescs_ok (l : List Trig) (hdesc : ∀ t ∈ l, (t.description).isSome) :
    ∃ descs, buildDescs l = .ok descs := by
  refine ⟨_, (foldlM_ok_of_inv _
    (fun acc t => acc ++ [pyLower (t.description.getD "")])
    (fun _ => True) l [] trivial ?_).1⟩
  rintro acc t - hmem
  obtain ⟨s, hs⟩ := Option.isSome_iff_exists.mp (hdesc t hmem)
  simp [buildDescs, hs]

/-- The pattern-merge loop completes when every draft pattern carries a name
and every dict index points at a pattern that has a description. -/
theorem consolidatePatterns_ok (ex nw : List Pat)
    (hnamesEx : ∀ q ∈ ex, (q.name).isSome)
    (hdescEx : ∀ q ∈ ex, (q.description).isSome)
    (hnamesNew : ∀ p ∈ nw, (p.name).isSome) :
    ∃ ps, consolidatePatterns ex nw = .ok ps := by
  have hbn := buildNames_eq_ok ex hnamesEx
  rw [consolidatePatterns, hbn]
  set names := ex.enum.foldl
    (fun m ip => dictInsert m (lowName ip.2) ip.1) [] with hnames_def
  have hvals : ∀ e ∈ names, e.2 < ex.length :=
    buildNames_values (by rw [hbn])
  set P : List Pat → Prop :=
    fun m => ∀ kv ∈ names, ∃ q, m[kv.2]? = some q ∧ q.description.isSome
    with hP
  have h0 : P ex := by
    intro kv hkv
    have hlt := hvals kv hkv
    exact ⟨ex[kv.2], List.getElem?_eq_getElem hlt,
      hdescEx _ (List.getElem_mem _)⟩
  have hstep : ∀ b p, P b → p ∈ nw →
      (deepenStep names b p =
        .ok (match deepenStep names b p with
             | .ok v => v
             | .error _ => b)) ∧
      P (match deepenStep names b p with
         | .ok v => v
         | .error _ => b) := by
    intro b p hPb hp
    obtain ⟨s, hs⟩ := Option.isSome_iff_exists.mp (hnamesNew p hp)
    cases hlk : List.lookup (pyLower s) names with
    | none =>
      have hres : deepenStep names b p = .ok (b ++ [p]) := by
        rw [deepenStep, hs]
        dsimp only
        rw [hlk]
      rw [hres]
      refine ⟨rfl, ?_⟩
      intro kv hkv
      obtain ⟨q, hq, hqd⟩ := hPb kv hkv
      have hlt : kv.2 < b.length := (List.getElem?_eq_some.mp hq).1
      exact ⟨q, by rw [List.getElem?_append_left hlt]; exact hq, hqd⟩
    | some idx =>
      obtain ⟨q, hq, hqd⟩ := hPb (pyLower s, idx) (mem_of_lookup_eq_some hlk)
      obtain ⟨d, hd⟩ := Option.isSome_iff_exists.mp hqd
      have hres : deepenStep names b p =
          .ok (b.set idx
            { q with
              description := some (d ++ "\nDeepened: " ++ pyStr p.description)
              confidence := some (pyMin 1 (q.confidence.getD (1/2) + 1/10)) }) := by
        rw [deepenStep, hs]
        dsimp only
        rw [hlk]
        dsimp only
        rw [show b[idx]? = some q from hq]
        dsimp only
        rw [hd]
      rw [hres]
      refine ⟨rfl, ?_⟩
      intro kv hkv
      have hlt : kv.2 < b.length := (List.getElem?_eq_some.mp
        ((hPb kv hkv).choose_spec.1)).1
      by_cases hkvidx : kv.2 = idx
      · subst hkvidx
        exact ⟨_, List.getElem?_set_self hlt, by simp⟩
      · obtain ⟨q', hq', hqd'⟩ := hPb kv hkv
        exact ⟨q', by rw [List.getElem?_set_ne (fun h => hkvidx h.symm)]; exact hq', hqd'⟩
  have := foldlM_ok_of_inv (deepenStep names)
    (fun b p => match deepenStep names b p with
                | .ok v => v
                | .error _ => b) P nw ex h0 hstep
  exact ⟨_, this.1⟩

/-- The constraint merge completes when all rules (existing and draft) are
present. -/
theorem consolidateConstraints_ok (ex nw : List Cons)
    (hruleEx : ∀ c ∈ ex, (c.rule).isSome)
    (hruleNew : ∀ c ∈ nw, (c.rule).isSome) :
    ∃ cs, consolidateConstraints ex nw = .ok cs := by
  obtain ⟨rules, hrules⟩ := buildRules_ok ex hruleEx
  rw [consolidateConstraints, hrules]
  refine ⟨_, (foldlM_ok_of_inv _
    (fun merged c =>
      if rules.any (fun e => e.1 = pyLower (c.rule.getD "")) then merged
      else merged ++ [c])
    (fun _ => True) nw ex trivial ?_).1⟩
  rintro merged c - hc
  obtain ⟨s, hs⟩ := Option.isSome_iff_exists.mp (hruleNew c hc)
  refine ⟨?_, trivial⟩
  dsimp only
  rw [hs]
  dsimp only
  simp only [Option.getD_some]
  split <;> rfl

/-- The trigger merge completes when all descriptions (existing and draft) are
present. -/
theorem consolidateTriggers_ok (ex nw : List Trig)
    (hdescEx : ∀ t ∈ ex, (t.description).isSome)
    (hdescNew : ∀ t ∈ nw, (t.description).isSome) :
    ∃ ts, consolidateTriggers ex nw = .ok ts := by
  obtain ⟨descs, hdescs⟩ := buildDescs_ok ex hdescEx
  rw [consolidateTriggers, hdescs]
  refine ⟨_, (foldlM_ok_of_inv _
    (fun merged t =>
      if descs.contains (pyLower (t.description.getD "")) then merged
      else merged ++ [t])
    (fun _ => True) nw ex trivial ?_).1⟩
  rintro merged t - ht
  obtain ⟨s, hs⟩ := Option.isSome_iff_exists.mp (hdescNew t ht)
  refine ⟨?_, trivial⟩
  dsimp only
  rw [hs]
  dsimp only
  simp only [Option.getD_some]
  split <;> rfl

/-- Counterexample to C10 as stated: the claim's precondition (names on all
patterns, rules on existing constraints, descriptions on existing triggers) is
not enough for totality — a draft constraint without a `"rule"` key also makes
`consolidate` raise (`None.lower()`), even though every existing collection is
well-formed (here they are empty). -/
theorem consolidate_totality_counterexample :
    consolidate {} { constraints := [{ id := some "c1" }] } =
      .error .attributeError := by
  with_unfolding_all decide

/-- C10 (amended) — totality of `consolidate`: it completes without raising
when every pattern (existing or draft) carries a name, every existing pattern
carries a description, every constraint (existing or draft) carries a rule,
and every trigger (existing or draft) carries a description; and it raises
when any pattern lacks a name, any existing constraint lacks a rule, or any
existing trigger lacks a description. -/
theorem consolidate_totality_amended (ej : ExistingJudgment) (ext : Extraction) :
    ((∀ q ∈ ej.patterns, (q.name).isSome) →
     (∀ q ∈ ej.patterns, (q.description).isSome) →
     (∀ p ∈ ext.patterns, (p.name).isSome) →
     (∀ c ∈ ej.hard_constraints, (c.rule).isSome) →
     (∀ c ∈ ext.constraints, (c.rule).isSome) →
     (∀ t ∈ ej.escalation_triggers, (t.description).isSome) →
     (∀ t ∈ ext.triggers, (t.description).isSome) →
     ∃ prof, consolidate ej ext = .ok prof) ∧
    ((∃ q ∈ ej.patterns ++ ext.patterns, q.name = none) →
      ∃ e, consolidate ej ext = .error e) ∧
    ((∃ c ∈ ej.hard_constraints, c.rule = none) →
      ∃ e, consolidate ej ext = .error e) ∧
    ((∃ t ∈ ej.escalation_triggers, t.description = none) →
      ∃ e, consolidate ej ext = .error e) := by
  refine ⟨?_, ?_, ?_, ?_⟩
  · intro h1 h2 h3 h4 h5 h6 h7
    obtain ⟨ps, hps⟩ := consolidatePatterns_ok ej.patterns ext.patterns h1 h2 h3
    obtain ⟨cs, hcs⟩ :=
      consolidateConstraints_ok ej.hard_constraints ext.constraints h4 h5
    obtain ⟨ts, hts⟩ :=
      consolidateTriggers_ok ej.escalation_triggers ext.triggers h6 h7
    refine ⟨{ patterns := ps, hard_constraints := cs, escalation_triggers := ts,
              confidence_map :=
                ext.confidence_map.getD (ej.confidence_map.getD []),
              review_required := findUnresolvedContradictions ps cs }, ?_⟩
    rw [consolidate, hps, hcs, hts]
    rfl
  · rintro ⟨q, hq, hqname⟩
    rcases List.mem_append.mp hq with hq | hq
    · obtain ⟨e, he⟩ := dict_comprehension_error Pat.name ej.patterns q hq hqname
      refine ⟨e, ?_⟩
      rw [consolidate, consolidatePatterns]
      rw [show buildNames ej.patterns = .error e from he]
      rfl
    · cases hbn : buildNames ej.patterns with
      | error e =>
        refine ⟨e, ?_⟩
        rw [consolidate, consolidatePatterns, hbn]
        rfl
      | ok names =>
        obtain ⟨e, he⟩ := foldlM_error_of_mem (deepenStep names)
          ext.patterns q hq
          (fun b => ⟨.attributeError, by rw [deepenStep, hqname]⟩)
          ej.patterns
        refine ⟨e, ?_⟩
        rw [consolidate, consolidatePatterns, hbn]
        show (Except.ok names >>= fun names =>
          ext.patterns.foldlM (deepenStep names) ej.patterns) >>= _ = _
        rw [show (Except.ok names >>= fun names =>
          ext.patterns.foldlM (deepenStep names) ej.patterns) =
          ext.patterns.foldlM (deepenStep names) ej.patterns from rfl, he]
        rfl
  · rintro ⟨c, hc, hcrule⟩
    cases hps : consolidatePatterns ej.patterns ext.patterns with
    | error e => exact ⟨e, by rw [consolidate, hps]; rfl⟩
    | ok ps =>
      obtain ⟨e, he⟩ :=
        dict_comprehension_error Cons.rule ej.hard_constraints c hc hcrule
      refine ⟨e, ?_⟩
      rw [consolidate, hps, consolidateConstraints]
      rw [show buildRules ej.hard_constraints = .error e from he]
      rfl
  · rintro ⟨t, ht, htdesc⟩
    cases hps : consolidatePatterns ej.patterns ext.patterns with
    | error e => exact ⟨e, by rw [consolidate, hps]; rfl⟩
    | ok ps =>
      cases hcs : consolidateConstraints ej.hard_constraints ext.constraints with
      | error e => exact ⟨e, by rw [consolidate, hps, hcs]; rfl⟩
      | ok cs =>
        obtain ⟨e, he⟩ := foldlM_error_of_mem
          (fun acc tr =>
            match tr.description with
            | none => Except.error PyErr.attributeError
            | some s => .ok (acc ++ [pyLower s]))
          ej.escalation_triggers t ht
          (fun b => ⟨.attributeError, by simp only [htdesc]⟩) []
        refine ⟨e, ?_⟩
        rw [consolidate, hps, hcs, consolidateTriggers]
        rw [show buildDescs ej.escalation_triggers = .error e from he]
        rfl

/-- Witness for the amended C10 at a small well-formed input. -/
theorem consolidate_totality_amended_witness :
    ∃ prof, consolidate
      { patterns := [{ name := some "Foo", description := some "d0" }],
        hard_constraints := [{ rule := some "never share keys" }],
        escalation_triggers := [{ description := some "call me" }] }
      { patterns := [{ name := some "Bar", description := some "d1" }],
        constraints := [{ rule := some "never send funds" }],
        triggers := [{ description := some "stop and ask" }] } = .ok prof :=
  (consolidate_totality_amended _ _).1 (by decide) (by decide) (by decide)
    (by decide) (by decide) (by decide) (by decide)

/-! ### C2 — the training pipeline's merge discipline -/

theorem foldl_skip_or_append_prop {α : Type} (P : α → Prop) [DecidablePred P] :
    ∀ (l acc : List α),
      l.foldl (fun m x => if P x then m else m ++ [x]) acc =
        acc ++ l.filter (fun x => decide ¬ P x)
  | [], acc => by simp
  | x :: xs, acc => by
    by_cases h : P x <;>
      simp [List.foldl_cons, h, foldl_skip_or_append_prop P xs, List.filter_cons]

/-- Counterexample to C2 as stated: on the spec's own deepening example the
merge the session pipeline actually performs (`JudgmentEncoder._merge_patterns`,
id-based) disagrees with `TrainingConsolidator.consolidate`'s normalized-name
discipline — the encoder keeps two patterns where the consolidator deepens
into one. -/
theorem encoder_merge_counterexample :
    Except.ok (encMergePatterns
        [{ id := some "pat_1", name := some "Foo", description := some "d1",
           confidence := some (1/2) }]
        [{ id := some "pat_2", name := some "foo", description := some "d2" }]) ≠
      consolidatePatterns
        [{ id := some "pat_1", name := some "Foo", description := some "d1",
           confidence := some (1/2) }]
        [{ id := some "pat_2", name := some "foo", description := some "d2" }] ∧
    (encMergePatterns
        [{ id := some "pat_1", name := some "Foo", description := some "d1",
           confidence := some (1/2) }]
        [{ id := some "pat_2", name := some "foo",
           description := some "d2" }]).length = 2 ∧
    (consolidatePatterns
        [{ id := some "pat_1", name := some "Foo", description := some "d1",
           confidence := some (1/2) }]
        [{ id := some "pat_2", name := some "foo",
           description := some "d2" }]).map List.length = .ok 1 := by
  refine ⟨?_, ?_, ?_⟩
  · with_unfolding_all decide
  · with_unfolding_all decide
  · with_unfolding_all decide

/-- C2 (amended) — the merge the training-ingestion pipeline actually invokes
(`JudgmentEncoder.encode`, before the new version is written) is, as a
function of (existing profile, draft extraction), the id-based de-duplication
discipline: every existing entry is kept and exactly the draft entries whose
id is not among the existing ids are appended, in draft order, for patterns,
constraints and triggers alike, with the draft's confidence map preferred when
supplied.  It is not the §4.1 normalized-text discipline of
`TrainingConsolidator.consolidate` (see the counterexample). -/
theorem encoder_merge_is_id_dedup (existing : ExistingCore) (ext : Extraction) :
    mergeForEncode existing ext = specIdDedupMerge existing ext := by
  rw [mergeForEncode, specIdDedupMerge]
  have hp := foldl_skip_or_append_prop
    (fun p : Pat => p.id ∈ existing.judgment_patterns.map (fun p => p.id))
    ext.patterns existing.judgment_patterns
  have hc := foldl_skip_or_append_prop
    (fun c : Cons => c.id ∈ existing.hard_constraints.map (fun c => c.id))
    ext.constraints existing.hard_constraints
  have ht := foldl_skip_or_append_prop
    (fun t : Trig => t.id ∈ existing.escalation_triggers.map (fun t => t.id))
    ext.triggers existing.escalation_triggers
  rw [encMergePatterns, encMergeConstraints, encMergeTriggers]
  simp only [hp, hc, ht]

/-! ### C4 — the untrained envelope default -/

/-- Counterexample to C4 as stated: the envelope builder's untrained default
confidence map uses `0.7` as the slow_down/act boundary, not `0.6` — its
(min, max, action) triples differ from the spec's §3 default three-range map
in the second range's `max` and the third range's `min`. -/
theorem untrained_default_counterexample :
    (buildExpertJudgment none).confidenceMap.map
        (fun r => (r.min, r.max, r.action)) ≠ specDefaultConfidenceMap ∧
    ((buildExpertJudgment none).confidenceMap.map
        (fun r => (r.min, r.max, r.action)))[1]? =
      some (3/10, 7/10, "slow_down") ∧
    specDefaultConfidenceMap[1]? = some (3/10, 6/10, "slow_down") := by
  refine ⟨?_, ?_, ?_⟩
  · with_unfolding_all decide
  · with_unfolding_all decide
  · with_unfolding_all decide

/-- C4 (amended) — untrained default: when loading core memory returns absent,
the envelope builder substitutes an expert judgment with version "untrained",
empty pattern, constraint and trigger collections, and exactly the three-range
confidence map `[0,0.3)→escalate`, `[0.3,0.7)→slow_down`, `[0.7,1.0]→act`. -/
theorem untrained_default_amended :
    (buildExpertJudgment none).patterns = [] ∧
    (buildExpertJudgment none).hardConstraints = [] ∧
    (buildExpertJudgment none).escalationTriggers = [] ∧
    (buildExpertJudgment none).expertId = "" ∧
    (buildExpertJudgment none).version = "untrained" ∧
    (buildExpertJudgment none).confidenceMap.map
        (fun r => (r.min, r.max, r.action)) =
      [(0, 3/10, "escalate"), (3/10, 7/10, "slow_down"), (7/10, 1, "act")] := by
  refine ⟨rfl, rfl, rfl, rfl, rfl, ?_⟩
  with_unfolding_all decide

/-! ### C5, C6 — drift detection -/

/-- C5 — drift zero-activity boundary: with `taskCount = 0` the drift
computation does not raise on the zero denominator and reports
`escalationRate = 0`, `driftScore = 0`, `driftDetected = false`; and with
`escalationCount = 4, taskCount = 10` (rate 0.4) it reports
`driftDetected = true` and `driftScore = 1` (clamped). -/
theorem drift_zero_activity_boundary (agent : String) (e : Nat) :
    (detectDrift agent e 0).map
      (fun r => (r.escalation_rate, r.drift_score, r.drift_detected)) =
      .ok (0, 0, false) ∧
    (detectDrift agent 4 10).map
      (fun r => (r.drift_detected, r.drift_score)) = .ok (true, 1) := by
  constructor <;>
    norm_num [detectDrift, pyDiv, pyMin, round3, roundHalfEven, Except.map,
      Except.instMonad, Except.bind]

set_option maxRecDepth 10000 in
/-- Counterexample to C6 as stated: the report's `driftScore` is not exactly
`min(1, rate/0.3)` — the code rounds it to three decimals.  At
`escalationCount = 1, taskCount = 7` the exact value is `10/21 = 0.47619...`
but the report carries `0.476`. -/
theorem drift_formula_counterexample :
    (detectDrift "agent" 1 7).map (fun r => r.drift_score) ≠
      .ok (min 1 (((1 : ℚ)/7) / (3/10))) ∧
    (detectDrift "agent" 1 7).map (fun r => r.drift_score) = .ok (476/1000) := by
  have h : (detectDrift "agent" 1 7).map (fun r => r.drift_score) =
      .ok (476/1000) := by
    have h1 : (detectDrift "agent" 1 7).map (fun r => r.drift_score) =
        .ok (round3 (pyMin 1 (((1 : ℚ)/7) / (3/10)))) := by
      norm_num [detectDrift, pyDiv, Except.map, Except.instMonad, Except.bind]
    have h2 : pyMin 1 (((1 : ℚ)/7) / (3/10)) = 10/21 := by norm_num [pyMin]
    have h3 : round3 ((10 : ℚ)/21) = 476/1000 := by
      norm_num [round3, roundHalfEven, Int.floor_eq_iff, Int.fract]
    rw [h1, h2, h3]
  refine ⟨?_, h⟩
  rw [h]
  intro hcontra
  have := Except.ok.inj hcontra
  rw [min_def] at this
  norm_num at this

/-- C6 (amended) — drift formula: for `taskCount > 0` the report satisfies
exactly `driftDetected = (escalationCount/taskCount > 0.30)` and
`driftScore = round(min(1, (escalationCount/taskCount)/0.30), 3)` — the raw
clamped ratio rounded to three decimals (round half to even), which is the
only deviation from the claim's formula. -/
theorem drift_formula_amended (agent : String) (e t : Nat) (ht : 0 < t) :
    (detectDrift agent e t).map
      (fun r => (r.drift_detected, r.drift_score)) =
      .ok (decide ((e : ℚ)/t > 3/10),
           round3 (min 1 (((e : ℚ)/t) / (3/10)))) := by
  norm_num [detectDrift, pyDiv, pyMin_eq_min, Except.map,
    Except.instMonad, Except.bind, ht, ht.ne', Nat.cast_eq_zero]

/-- Witness for the amended C6 at `escalationCount = 4, taskCount = 10`. -/
theorem drift_formula_amended_witness :
    (0 : Nat) < 10 ∧
    (detectDrift "agent" 4 10).map
      (fun r => (r.drift_detected, r.drift_score)) =
      .ok (decide (((4 : Nat) : ℚ)/((10 : Nat) : ℚ) > 3/10),
           round3 (min 1 ((((4 : Nat) : ℚ)/((10 : Nat) : ℚ)) / (3/10)))) ∧
    (decide (((4 : Nat) : ℚ)/((10 : Nat) : ℚ) > 3/10) = true ∧
     round3 (min 1 ((((4 : Nat) : ℚ)/((10 : Nat) : ℚ)) / (3/10))) = 1) :=
  ⟨by norm_num,
   drift_formula_amended "agent" 4 10 (by norm_num),
   by norm_num [round3, roundHalfEven, min_def],
   by norm_num [round3, roundHalfEven, min_def, Int.fract]⟩

/-! ### C7 — the morning note's sentiment parenthetical -/

theorem string_foldl_append :
    ∀ (l : List String) (init : String),
      l.foldl (fun a b => a ++ b) init = init ++ String.join l
  | [], init => by simp [String.join, String.append_empty]
  | s :: l, init => by
    have h1 := string_foldl_append l (init ++ s)
    have h2 := string_foldl_append l ("" ++ s)
    simp only [List.foldl_cons] at *
    rw [h1,
      show String.join (s :: l) = (s :: l).foldl (fun a b => a ++ b) "" from rfl]
    simp only [List.foldl_cons]
    rw [h2, String.empty_append, String.append_assoc]

theorem stringJoin_cons (s : String) (l : List String) :
    String.join (s :: l) = s ++ String.join l := by
  rw [show String.join (s :: l) = (s :: l).foldl (fun a b => a ++ b) "" from rfl]
  simp only [List.foldl_cons]
  rw [string_foldl_append l ("" ++ s), String.empty_append]

set_option maxRecDepth 40000 in
/-- Counterexample to C7 as stated: with one episode of neutral sentiment
(`episodesReviewed = 1 > 0`, so the neutral bucket is nonzero) the note
carries no parenthetical at all — the code only appends one when
`positive > 0 or negative > 0`. -/
theorem morning_note_counterexample :
    generateMorningNote "a1"
      { episodes_reviewed := 1, episodes := [{ sentiment := some 0 }] } {} =
      "Good morning. Yesterday I processed 1 sessions." ++
        " All systems operating within trained parameters." ∧
    ¬ (("(1 routine)").data <:+:
      (generateMorningNote "a1"
        { episodes_reviewed := 1, episodes := [{ sentiment := some 0 }] }
        {}).data) := by
  constructor <;> with_unfolding_all decide

/-- C7 (amended) — morning-note shape: for a nonzero session count the note
is the opening "Good morning. Yesterday I processed N sessions", then — only
when `positive > 0` or `negative > 0` — a parenthetical listing exactly the
nonzero buckets in the order positive, challenging, routine, each as
"count label" joined by ", ", then the closing period and the
patterns/drift sentences.  When both `positive` and `negative` are zero the
parenthetical is absent even though the neutral bucket is nonzero. -/
theorem morning_note_amended (agentId : String) (cr : ConsolidationResult)
    (dr : DriftInput) (h0 : cr.episodes_reviewed ≠ 0) :
    generateMorningNote agentId cr dr =
      noteOpening cr ++
      (if notePositive cr > 0 ∨ noteNegative cr > 0
       then " (" ++ String.intercalate ", " (noteBuckets cr) ++ ")" else "") ++
      "." ++
      (if cr.patterns_found > 0
       then " I identified " ++ toString cr.patterns_found ++
         " recurring patterns worth noting."
       else "") ++
      (if dr.drift_detected
       then " ⚠️ Behavioral drift detected (score: " ++
         fmtFixed 2 dr.drift_score ++ ", escalation rate: " ++
         pct1 dr.escalation_rate ++ "). " ++
         "I recommend reviewing my recent decisions."
       else " All systems operating within trained parameters.") := by
  have hjn : String.join [] = "" := rfl
  rw [generateMorningNote, if_neg h0]
  by_cases h1 : notePositive cr > 0 ∨ noteNegative cr > 0 <;>
    by_cases h2 : cr.patterns_found > 0 <;>
      by_cases h3 : dr.drift_detected = true <;>
        simp only [h1, h2, h3, List.singleton_append, List.cons_append,
          List.nil_append, stringJoin_cons, hjn, String.append_assoc,
          String.append_empty, String.empty_append, if_true, if_false,
          iff_true, iff_false, ite_true, ite_false, eq_self_iff_true,
          Bool.false_eq_true, not_false_eq_true]

set_option maxRecDepth 80000 in
/-- Witness for the amended C7 at the spec's example: 5 episodes, 3 positive,
1 negative, 1 neutral — the parenthetical reads
"(3 positive, 1 challenging, 1 routine)". -/
theorem morning_note_amended_witness :
    generateMorningNote "a1"
      { episodes_reviewed := 5,
        episodes := [{ sentiment := some (3/5) }, { sentiment := some (7/10) },
                     { sentiment := some (9/10) }, { sentiment := some (-(1/2)) },
                     { sentiment := some 0 }] } {} =
      noteOpening
        { episodes_reviewed := 5,
          episodes := [{ sentiment := some (3/5) }, { sentiment := some (7/10) },
                       { sentiment := some (9/10) }, { sentiment := some (-(1/2)) },
                       { sentiment := some 0 }] } ++
      (if notePositive
          { episodes_reviewed := 5,
            episodes := [{ sentiment := some (3/5) }, { sentiment := some (7/10) },
                         { sentiment := some (9/10) }, { sentiment := some (-(1/2)) },
                         { sentiment := some 0 }] } > 0 ∨
          noteNegative
          { episodes_reviewed := 5,
            episodes := [{ sentiment := some (3/5) }, { sentiment := some (7/10) },
                         { sentiment := some (9/10) }, { sentiment := some (-(1/2)) },
                         { sentiment := some 0 }] } > 0
       then " (" ++ String.intercalate ", "
          (noteBuckets
            { episodes_reviewed := 5,
              episodes := [{ sentiment := some (3/5) }, { sentiment := some (7/10) },
                           { sentiment := some (9/10) }, { sentiment := some (-(1/2)) },
                           { sentiment := some 0 }] }) ++ ")" else "") ++
      "." ++
      (if (0 : Nat) > 0
       then " I identified " ++ toString (0 : Nat) ++
         " recurring patterns worth noting."
       else "") ++
      (if (false : Bool)
       then " ⚠️ Behavioral drift detected (score: " ++
         fmtFixed 2 (0 : ℚ) ++ ", escalation rate: " ++
         pct1 (0 : ℚ) ++ "). " ++
         "I recommend reviewing my recent decisions."
       else " All systems operating within trained parameters.") ∧
    noteBuckets
      { episodes_reviewed := 5,
        episodes := [{ sentiment := some (3/5) }, { sentiment := some (7/10) },
                     { sentiment := some (9/10) }, { sentiment := some (-(1/2)) },
                     { sentiment := some 0 }] } =
      ["3 positive", "1 challenging", "1 routine"] ∧
    ("(3 positive, 1 challenging, 1 routine)").data <:+:
      (generateMorningNote "a1"
        { episodes_reviewed := 5,
          episodes := [{ sentiment := some (3/5) }, { sentiment := some (7/10) },
                       { sentiment := some (9/10) }, { sentiment := some (-(1/2)) },
                       { sentiment := some 0 }] } {}).data :=
  ⟨morning_note_amended "a1" _ {} (by decide),
   by with_unfolding_all decide,
   by with_unfolding_all decide⟩

/-! ### C3 — version-hash determinism -/

theorem orderedInsert_map_keyLe {β γ : Type} (g : String × β → String × γ)
    (hg : ∀ e, (g e).1 = e.1) (a : String × β) :
    ∀ l : List (String × β),
      (l.orderedInsert keyLe a).map g = (l.map g).orderedInsert keyLe (g a)
  | [] => rfl
  | b :: t => by
    have hk : keyLe (g a) (g b) ↔ keyLe a b := by
      rw [keyLe, keyLe, hg, hg]
    by_cases h : keyLe a b
    · simp [List.orderedInsert, h, hk]
    · simp [List.orderedInsert, h, hk, orderedInsert_map_keyLe g hg a t]

theorem insertionSort_map_keyLe {β γ : Type} (g : String × β → String × γ)
    (hg : ∀ e, (g e).1 = e.1) :
    ∀ l : List (String × β),
      (l.insertionSort keyLe).map g = (l.map g).insertionSort keyLe
  | [] => rfl
  | a :: t => by
    rw [List.insertionSort, List.map_cons, List.insertionSort,
      orderedInsert_map_keyLe g hg a, insertionSort_map_keyLe g hg t]

/-- Key-sorting is idempotent. -/
theorem sortPairs_idem (l : List (String × String)) :
    sortPairs (sortPairs l) = sortPairs l :=
  List.Sorted.insertionSort_eq (List.sorted_insertionSort keyLe l)

theorem dumpsEntries_ofList :
    ∀ l : List (String × Json),
      dumpsEntries (.ofList l) = l.map (fun e => (e.1, dumps e.2))
  | [] => rfl
  | e :: es => by
    rw [JsonEntries.ofList, dumpsEntries, dumpsEntries_ofList es,
      List.map_cons]

mutual

/-- Serialization only depends on the canonical (key-sorted) form: sorting the
object entries before serializing changes nothing, because `dumps` sorts by
key anyway. -/
theorem dumps_canon : ∀ j : Json, dumps (canon j) = dumps j
  | .null => rfl
  | .bool _ => rfl
  | .num _ => rfl
  | .str _ => rfl
  | .arr items => by
    rw [canon, dumps, dumps, dumpsList_canon items]
  | .obj entries => by
    rw [canon, dumps, dumps, dumpsEntries_ofList]
    have h1 : (sortEntries (canonEntries entries)).map
        (fun e => (e.1, dumps e.2)) =
        sortPairs ((canonEntries entries).map (fun e => (e.1, dumps e.2))) :=
      insertionSort_map_keyLe (fun e => (e.1, dumps e.2)) (fun _ => rfl) _
    rw [h1, sortPairs_idem, dumpsEntries_canon entries]

/-- List version of `dumps_canon`. -/
theorem dumpsList_canon :
    ∀ xs : JsonList, dumpsList (.ofList (canonList xs)) = dumpsList xs
  | .nil => rfl
  | .cons x xs => by
    rw [canonList, JsonList.ofList, dumpsList, dumpsList, dumps_canon x,
      dumpsList_canon xs]

/-- Entries version of `dumps_canon`. -/
theorem dumpsEntries_canon :
    ∀ es : JsonEntries,
      (canonEntries es).map (fun e => (e.1, dumps e.2)) = dumpsEntries es
  | .nil => rfl
  | .cons k v es => by
    rw [canonEntries, List.map_cons, dumpsEntries, dumps_canon v,
      dumpsEntries_canon es]

end

theorem toHexFixed_length : ∀ k n, (toHexFixed k n).length = k
  | 0, _ => rfl
  | k + 1, n => by
    rw [toHexFixed, List.length_append, toHexFixed_length k (n / 16)]
    rfl

theorem compress_length (h block : List Nat) :
    (Sha256.compress h block).length = 8 := rfl

theorem digestWords_length (msg : List Nat) :
    (Sha256.digestWords msg).length = 8 := by
  rw [Sha256.digestWords]
  have : ∀ (l : List (List Nat)) (h : List Nat), h.length = 8 →
      (l.foldl Sha256.compress h).length = 8 := by
    intro l
    induction l with
    | nil => intro h hh; simpa using hh
    | cons b t ih =>
      intro h hh
      rw [List.foldl_cons]
      exact ih _ (compress_length h b)
  exact this _ _ rfl

theorem hexChars_length (msg : List Nat) :
    (Sha256.hexChars msg).length = 64 := by
  rw [Sha256.hexChars]
  have : ∀ l : List Nat,
      (l.foldr (fun w acc => toHexFixed 8 w ++ acc) []).length = 8 * l.length := by
    intro l
    induction l with
    | nil => rfl
    | cons w t ih =>
      rw [List.foldr_cons, List.length_append, toHexFixed_length, ih,
        List.length_cons]
      ring
  rw [this, digestWords_length]

/-- C3 — version-hash determinism: the version hash `CoreMemory.write`
returns is a function of the canonical (key-sorted) serialization of the
`{judgment, constraints, triggers, confidence}` content alone — two writes
whose content is equal up to dictionary key ordering (equal canonical forms)
get the same hash, whatever the wall-clock `now` of each write; and the hash
is the SHA-256 hex digest of that serialization truncated to 16 hex
characters. -/
theorem version_hash_determinism
    (j₁ j₂ : Json) (c₁ c₂ t₁ t₂ m₁ m₂ : List Json) (now₁ now₂ : ℚ)
    (h : canon (writeContentJson j₁ c₁ t₁ m₁) =
      canon (writeContentJson j₂ c₂ t₂ m₂)) :
    (coreMemoryWrite j₁ c₁ t₁ m₁ now₁).training_version =
      (coreMemoryWrite j₂ c₂ t₂ m₂ now₂).training_version ∧
    (coreMemoryWrite j₁ c₁ t₁ m₁ now₁).training_version =
      String.mk ((Sha256.hexChars (utf8Encode
        (dumps (writeContentJson j₁ c₁ t₁ m₁)))).take 16) ∧
    (coreMemoryWrite j₁ c₁ t₁ m₁ now₁).training_version.length = 16 := by
  have hdumps : dumps (writeContentJson j₁ c₁ t₁ m₁) =
      dumps (writeContentJson j₂ c₂ t₂ m₂) := by
    rw [← dumps_canon (writeContentJson j₁ c₁ t₁ m₁), h, dumps_canon]
  refine ⟨?_, rfl, ?_⟩
  · show versionHashOf _ = versionHashOf _
    rw [versionHashOf, versionHashOf, hdumps]
  · show (String.mk ((Sha256.hexChars (utf8Encode
      (dumps (writeContentJson j₁ c₁ t₁ m₁)))).take 16)).length = 16
    have : ∀ l : List Char, (String.mk l).length = l.length := fun _ => rfl
    rw [this, List.length_take, hexChars_length]
    rfl

/-- Witness for C3: the same content with the judgment object's keys in the
two possible orders, written at two different times, hashes identically. -/
theorem version_hash_determinism_witness :
    canon (writeContentJson
        (.obj (.ofList [("a", .null), ("b", .bool true)])) [] [] []) =
      canon (writeContentJson
        (.obj (.ofList [("b", .bool true), ("a", .null)])) [] [] []) ∧
    (coreMemoryWrite
        (.obj (.ofList [("a", .null), ("b", .bool true)])) [] [] []
        0).training_version =
      (coreMemoryWrite
        (.obj (.ofList [("b", .bool true), ("a", .null)])) [] [] []
        1).training_version := by
  have h : canon (writeContentJson
      (.obj (.ofList [("a", .null), ("b", .bool true)])) [] [] []) =
      canon (writeContentJson
        (.obj (.ofList [("b", .bool true), ("a", .null)])) [] [] []) := by
    with_unfolding_all rfl
  exact ⟨h, (version_hash_determinism _ _ _ _ _ _ _ _ 0 1 h).1⟩

/-! ### C9 — the version hash depends on the transcript -/

set_option maxRecDepth 200000 in
/-- C9 — the version hash produced by the training-ingestion pipeline depends
on the source transcript, not only on the profile content: two extractions
with identical (empty) patterns, constraints, triggers and confidence maps but
different raw transcript hashes produce different version hashes, because
`JudgmentEncoder.encode` embeds the transcript hash inside the hashed
`judgment_json`. -/
theorem version_hash_depends_on_transcript :
    ({ confidence_map := some [], raw_transcript_hash := some "aaaaaaaaaaaaaaaa" :
        Extraction }).patterns =
      ({ confidence_map := some [], raw_transcript_hash := some "bbbbbbbbbbbbbbbb" :
        Extraction }).patterns ∧
    ({ confidence_map := some [], raw_transcript_hash := some "aaaaaaaaaaaaaaaa" :
        Extraction }).constraints =
      ({ confidence_map := some [], raw_transcript_hash := some "bbbbbbbbbbbbbbbb" :
        Extraction }).constraints ∧
    ({ confidence_map := some [], raw_transcript_hash := some "aaaaaaaaaaaaaaaa" :
        Extraction }).triggers =
      ({ confidence_map := some [], raw_transcript_hash := some "bbbbbbbbbbbbbbbb" :
        Extraction }).triggers ∧
    ({ confidence_map := some [], raw_transcript_hash := some "aaaaaaaaaaaaaaaa" :
        Extraction }).confidence_map =
      ({ confidence_map := some [], raw_transcript_hash := some "bbbbbbbbbbbbbbbb" :
        Extraction }).confidence_map ∧
    encodeVersionHash none
        { confidence_map := some [], raw_transcript_hash := some "aaaaaaaaaaaaaaaa" } ≠
      encodeVersionHash none
        { confidence_map := some [], raw_transcript_hash := some "bbbbbbbbbbbbbbbb" } := by
  refine ⟨rfl, rfl, rfl, rfl, ?_⟩
  have hc1 : Sha256.compress
      [1779033703, 3144134277, 1013904242, 2773480762, 1359893119, 2600822924,
       528734635, 1541459225]
      [123, 34, 99, 111, 110, 102, 105, 100, 101, 110, 99, 101, 34, 58, 32, 91,
       93, 44, 32, 34, 99, 111, 110, 115, 116, 114, 97, 105, 110, 116, 115, 34,
       58, 32, 91, 93, 44, 32, 34, 106, 117, 100, 103, 109, 101, 110, 116, 34,
       58, 32, 123, 34, 112, 97, 116, 116, 101, 114, 110, 115, 34, 58, 32, 91] =
      [2214625395, 318225576, 4044018640, 2914939424, 259882021, 4177213354,
       2451095860, 985874649] := by decide
  have hc2A : Sha256.compress
      [2214625395, 318225576, 4044018640, 2914939424, 259882021, 4177213354,
       2451095860, 985874649]
      [93, 44, 32, 34, 115, 111, 117, 114, 99, 101, 95, 116, 114, 97, 110, 115,
       99, 114, 105, 112, 116, 95, 104, 97, 115, 104, 34, 58, 32, 34, 97, 97,
       97, 97, 97, 97, 97, 97, 97, 97, 97, 97, 97, 97, 97, 97, 34, 125, 44, 32,
       34, 116, 114, 105, 103, 103, 101, 114, 115, 34, 58, 32, 91, 93] =
      [868603788, 3976578342, 3543917499, 401065480, 3581708992, 970820019,
       597859771, 3850993809] := by decide
  have hc2B : Sha256.compress
      [2214625395, 318225576, 4044018640, 2914939424, 259882021, 4177213354,
       2451095860, 985874649]
      [93, 44, 32, 34, 115, 111, 117, 114, 99, 101, 95, 116, 114, 97, 110, 115,
       99, 114, 105, 112, 116, 95, 104, 97, 115, 104, 34, 58, 32, 34, 98, 98,
       98, 98, 98, 98, 98, 98, 98, 98, 98, 98, 98, 98, 98, 98, 34, 125, 44, 32,
       34, 116, 114, 105, 103, 103, 101, 114, 115, 34, 58, 32, 91, 93] =
      [1705490224, 2922829564, 691084104, 1110440788, 2193725200, 3109579703,
       1287694364, 300352822] := by decide
  have hc3A : Sha256.compress
      [868603788, 3976578342, 3543917499, 401065480, 3581708992, 970820019,
       597859771, 3850993809]
      [125, 128, 0, 0, 0, 0, 0, 0, 0, 0, 0, 0, 0, 0, 0, 0, 0, 0, 0, 0, 0, 0,
       0, 0, 0, 0, 0, 0, 0, 0, 0, 0, 0, 0, 0, 0, 0, 0, 0, 0, 0, 0, 0, 0, 0, 0,
       0, 0, 0, 0, 0, 0, 0, 0, 0, 0, 0, 0, 0, 0, 0, 0, 4, 8] =
      [1135420275, 628230159, 2080904837, 1345694104, 491654577, 353590805,
       212667761, 2114681060] := by decide
  have hc3B : Sha256.compress
      [1705490224, 2922829564, 691084104, 1110440788, 2193725200, 3109579703,
       1287694364, 300352822]
      [125, 128, 0, 0, 0, 0, 0, 0, 0, 0, 0, 0, 0, 0, 0, 0, 0, 0, 0, 0, 0, 0,
       0, 0, 0, 0, 0, 0, 0, 0, 0, 0, 0, 0, 0, 0, 0, 0, 0, 0, 0, 0, 0, 0, 0, 0,
       0, 0, 0, 0, 0, 0, 0, 0, 0, 0, 0, 0, 0, 0, 0, 0, 4, 8] =
      [595630321, 2364374000, 1042167084, 3265384074, 1516167329, 1621341768,
       833545961, 1218533735] := by decide
  have hchunksA : Sha256.chunks (Sha256.pad (utf8Encode (dumps (writeContentJson
      (.obj (.ofList [("patterns", .arr (.ofList [])),
        ("source_transcript_hash", .str "aaaaaaaaaaaaaaaa")])) [] [] [])))) =
      [[123, 34, 99, 111, 110, 102, 105, 100, 101, 110, 99, 101, 34, 58, 32, 91,
        93, 44, 32, 34, 99, 111, 110, 115, 116, 114, 97, 105, 110, 116, 115, 34,
        58, 32, 91, 93, 44, 32, 34, 106, 117, 100, 103, 109, 101, 110, 116, 34,
        58, 32, 123, 34, 112, 97, 116, 116, 101, 114, 110, 115, 34, 58, 32, 91],
       [93, 44, 32, 34, 115, 111, 117, 114, 99, 101, 95, 116, 114, 97, 110, 115,
        99, 114, 105, 112, 116, 95, 104, 97, 115, 104, 34, 58, 32, 34, 97, 97,
        97, 97, 97, 97, 97, 97, 97, 97, 97, 97, 97, 97, 97, 97, 34, 125, 44, 32,
        34, 116, 114, 105, 103, 103, 101, 114, 115, 34, 58, 32, 91, 93],
       [125, 128, 0, 0, 0, 0, 0, 0, 0, 0, 0, 0, 0, 0, 0, 0, 0, 0, 0, 0, 0, 0,
        0, 0, 0, 0, 0, 0, 0, 0, 0, 0, 0, 0, 0, 0, 0, 0, 0, 0, 0, 0, 0, 0, 0, 0,
        0, 0, 0, 0, 0, 0, 0, 0, 0, 0, 0, 0, 0, 0, 0, 0, 4, 8]] := by decide
  have hchunksB : Sha256.chunks (Sha256.pad (utf8Encode (dumps (writeContentJson
      (.obj (.ofList [("patterns", .arr (.ofList [])),
        ("source_transcript_hash", .str "bbbbbbbbbbbbbbbb")])) [] [] [])))) =
      [[123, 34, 99, 111, 110, 102, 105, 100, 101, 110, 99, 101, 34, 58, 32, 91,
        93, 44, 32, 34, 99, 111, 110, 115, 116, 114, 97, 105, 110, 116, 115, 34,
        58, 32, 91, 93, 44, 32, 34, 106, 117, 100, 103, 109, 101, 110, 116, 34,
        58, 32, 123, 34, 112, 97, 116, 116, 101, 114, 110, 115, 34, 58, 32, 91],
       [93, 44, 32, 34, 115, 111, 117, 114, 99, 101, 95, 116, 114, 97, 110, 115,
        99, 114, 105, 112, 116, 95, 104, 97, 115, 104, 34, 58, 32, 34, 98, 98,
        98, 98, 98, 98, 98, 98, 98, 98, 98, 98, 98, 98, 98, 98, 34, 125, 44, 32,
        34, 116, 114, 105, 103, 103, 101, 114, 115, 34, 58, 32, 91, 93],
       [125, 128, 0, 0, 0, 0, 0, 0, 0, 0, 0, 0, 0, 0, 0, 0, 0, 0, 0, 0, 0, 0,
        0, 0, 0, 0, 0, 0, 0, 0, 0, 0, 0, 0, 0, 0, 0, 0, 0, 0, 0, 0, 0, 0, 0, 0,
        0, 0, 0, 0, 0, 0, 0, 0, 0, 0, 0, 0, 0, 0, 0, 0, 4, 8]] := by decide
  have hH0 : Sha256.H0 =
      [1779033703, 3144134277, 1013904242, 2773480762, 1359893119, 2600822924,
       528734635, 1541459225] := by decide
  have hdwA : Sha256.digestWords (utf8Encode (dumps (writeContentJson
      (.obj (.ofList [("patterns", .arr (.ofList [])),
        ("source_transcript_hash", .str "aaaaaaaaaaaaaaaa")])) [] [] []))) =
      [1135420275, 628230159, 2080904837, 1345694104, 491654577, 353590805,
       212667761, 2114681060] := by
    rw [Sha256.digestWords, hchunksA, hH0]
    simp only [List.foldl_cons, List.foldl_nil, hc1, hc2A, hc3A]
  have hdwB : Sha256.digestWords (utf8Encode (dumps (writeContentJson
      (.obj (.ofList [("patterns", .arr (.ofList [])),
        ("source_transcript_hash", .str "bbbbbbbbbbbbbbbb")])) [] [] []))) =
      [595630321, 2364374000, 1042167084, 3265384074, 1516167329, 1621341768,
       833545961, 1218533735] := by
    rw [Sha256.digestWords, hchunksB, hH0]
    simp only [List.foldl_cons, List.foldl_nil, hc1, hc2B, hc3B]
  have hA : encodeVersionHash none
      { confidence_map := some [], raw_transcript_hash := some "aaaaaaaaaaaaaaaa" } =
      "43ad23732572080f" := by
    show String.mk ((Sha256.hexChars (utf8Encode (dumps (writeContentJson
      (.obj (.ofList [("patterns", .arr (.ofList [])),
        ("source_transcript_hash", .str "aaaaaaaaaaaaaaaa")])) [] [] [])))).take 16) = _
    rw [Sha256.hexChars, hdwA]
    decide
  have hB : encodeVersionHash none
      { confidence_map := some [], raw_transcript_hash := some "bbbbbbbbbbbbbbbb" } =
      "238098f18ced7bf0" := by
    show String.mk ((Sha256.hexChars (utf8Encode (dumps (writeContentJson
      (.obj (.ofList [("patterns", .arr (.ofList [])),
        ("source_transcript_hash", .str "bbbbbbbbbbbbbbbb")])) [] [] [])))).take 16) = _
    rw [Sha256.hexChars, hdwB]
    decide
  rw [hA, hB]
  decide
